import Mathlib

/-!
# Guava: the per-connection session protocol engine

A shallow embedding of `internal/websocket/server.go` (the read loop of
`Server.ServeHTTP`), `internal/media/stream.go` (`ActiveStream`) and
`internal/ai/transcription.go` (`TranscribeActiveStream`).

The loop body of `ServeHTTP` becomes the function `handleFrame`: it takes the
connection state (the loop variable `stream`) and one inbound frame together
with the outcomes of the external calls made while that frame is handled, and
returns the new state and the list of external effects in the order the code
issues them (sink calls, the transcription call, replies).  `run` iterates
it over a frame sequence and `serve` adds the read-error branch that ends the
loop.

Sinks are `*os.File` values; each successful `os.Create` yields a new one, and
the model names them by their creation index on the connection.

The counter `Written` is an `int64`: it is an `Int` here and every update goes
through `wrapInt64`.

The library call `filepath.Join` is modelled with its path cleaning
(`filepathJoin`, `Clean`), for paths separated by `/`.

Not modelled: logging, the `OpenedAt` timestamp and the websocket handshake.
-/

namespace Guava

/-! ## Data model -/

/-- Payload of a binary frame. -/
abbrev Bytes := List UInt8

/-- The function `strings.ToLower`: the letters `A`-`Z` are mapped to `a`-`z`.
Characters outside ASCII are left as they are; the code compares the result
only with the ASCII words `start`, `end`, `opus`, `aac` and `wav`. -/
def ToLower (s : String) : String := ⟨s.data.map Char.toLower⟩

/-- The struct `ControlEnvelope` of `server.go`. -/
structure ControlEnvelope where
  Event : String
  ID : String
  Codec : String
deriving DecidableEq, Repr

/-- The fields of `Options` read by the loop of `ServeHTTP`. -/
structure Options where
  MaxTotalBytes : Int
  OutDir : String
deriving DecidableEq, Repr

/-- The struct `media.ActiveStream`; `W` is the sink, `none` for a nil writer. -/
structure ActiveStream where
  ID : String
  Codec : String
  Filename : String
  W : Option Nat
  Written : Int
deriving DecidableEq, Repr

/-- Arithmetic of `int64`: the value of `x` after two's-complement wrap-around. -/
def wrapInt64 (x : Int) : Int := (x + 2 ^ 63) % 2 ^ 64 - 2 ^ 63

/-- The function `isAllowedCodec` of `server.go`. -/
def isAllowedCodec (codec : String) : Bool :=
  let c := ToLower codec
  if c = "opus" ∨ c = "aac" ∨ c = "wav" then true else false

/-- The function `codecToExt` of `server.go`. -/
def codecToExt (codec : String) : String := ToLower codec

/-- The elements of a path: the pieces between its separators `/`. -/
def splitPath : List Char → List (List Char)
  | [] => [[]]
  | c :: rest =>
    if c = '/' then [] :: splitPath rest
    else
      match splitPath rest with
      | [] => [[c]]
      | e :: es => (c :: e) :: es

/-- One round of the loop of `filepath.Clean`: the elements written so far
(`out`, the last one first) after the element `e` has been read.  An empty
element and `.` are skipped; `..` removes the last element written unless
there is none or it is itself `..`, in which case `..` is written for a path
that is not rooted and nothing for a rooted one; any other element is
written. -/
def cleanElem (rooted : Bool) (out : List (List Char)) (e : List Char) : List (List Char) :=
  if e = [] ∨ e = ['.'] then out
  else if e = ['.', '.'] then
    match out with
    | [] => if rooted then [] else [e]
    | top :: rest => if top = ['.', '.'] then (if rooted then out else e :: out) else rest
  else e :: out

/-- The elements of a path joined with the separator `/`. -/
def joinPath : List (List Char) → List Char
  | [] => []
  | [e] => e
  | e :: f :: es => e ++ '/' :: joinPath (f :: es)

/-- The function `filepath.Clean` for paths separated by `/`: the empty path
becomes `.`; otherwise the elements are read in order (`cleanElem`) and those
written are joined with `/`, after the leading `/` of a rooted path; a path
that is not rooted and has no element left becomes `.`. -/
def Clean (path : String) : String :=
  match path.data with
  | [] => "."
  | c :: cs =>
    let rooted : Bool := c = '/'
    let kept := ((splitPath (c :: cs)).foldl (cleanElem rooted) []).reverse
    if rooted then ⟨'/' :: joinPath kept⟩
    else if kept = [] then "." else ⟨joinPath kept⟩

/-- The call `filepath.Join(dir, name)`: the elements from the first non-empty
one on are joined with `/` and the result is cleaned. -/
def filepathJoin (dir name : String) : String :=
  if dir ≠ "" then Clean (dir ++ "/" ++ name)
  else if name ≠ "" then Clean name
  else ""

/-! ## Transcription client (`internal/ai/transcription.go`) -/

/-- A decoded JSON value, as far as the server inspects it: a string or anything else. -/
inductive JSONValue where
  | str (s : String)
  | other
deriving DecidableEq, Repr

/-- A decoded JSON object (`map[string]any`). -/
abbrev JSONObject := List (String × JSONValue)

/-- The struct `TranscriptionResponse`; `JSON` is `none` for a nil map and
`Duration` is the rendering `Duration.String()`. -/
structure TranscriptionResponse where
  StatusCode : Int
  Body : String
  JSON : Option JSONObject
  Duration : String
deriving DecidableEq, Repr

/-- What the outside world does during one call of `TranscribeActiveStream`:
the first external call that fails (with its error text), or the response of
the backend: status code, body, the result of `json.Unmarshal` on the body
(`none` when it fails) and the elapsed time. -/
inductive Backend where
  | openFailed (msg : String)
  | createFormFileFailed (msg : String)
  | copyFailed (msg : String)
  | newRequestFailed (msg : String)
  | postFailed (msg : String)
  | readBodyFailed (msg : String)
  | responded (statusCode : Int) (body : String) (parsed : Option JSONObject)
      (duration : String)
deriving DecidableEq, Repr

/-- The function `TranscribeActiveStream`: the returned response (if any) and
the returned error (`none` for a nil error). -/
def TranscribeActiveStream (as : Option ActiveStream) (b : Backend) :
    Option TranscriptionResponse × Option String :=
  match as with
  | none => (none, some "invalid ActiveStream: missing Filename")
  | some a =>
    if a.Filename = "" then (none, some "invalid ActiveStream: missing Filename")
    else
      match b with
      | .openFailed msg => (none, some ("open file: " ++ msg))
      | .createFormFileFailed msg => (none, some ("create form file: " ++ msg))
      | .copyFailed msg => (none, some ("copy file: " ++ msg))
      | .newRequestFailed msg => (none, some ("new request: " ++ msg))
      | .postFailed msg => (none, some ("http post: " ++ msg))
      | .readBodyFailed msg => (none, some ("read body: " ++ msg))
      | .responded statusCode body parsed duration =>
        let out : TranscriptionResponse :=
          { StatusCode := statusCode, Body := body, JSON := parsed, Duration := duration }
        if statusCode < 200 ∨ statusCode ≥ 300 then
          (some out, some ("non-2xx: " ++ toString statusCode))
        else (some out, none)

/-- The expression `resp.JSON["text"].(string)` with the comma-ok form: the
string stored under `"text"`, or the empty string. -/
def jsonText (js : Option JSONObject) : String :=
  match js with
  | none => ""
  | some obj =>
    match obj.lookup "text" with
    | some (.str s) => s
    | _ => ""

/-! ## Frames, replies and effects -/

/-- An inbound frame as the loop sees it: a text frame with the result of
`json.Unmarshal` into a `ControlEnvelope` (`none` when decoding fails), a
binary frame with its bytes, or a frame of any other message type. -/
inductive Frame where
  | text (env : Option ControlEnvelope)
  | binary (data : Bytes)
  | other
deriving DecidableEq, Repr

/-- The JSON objects the server writes back. -/
inductive Reply where
  /-- The object `{"error": msg}`, written by `replyError`. -/
  | wsError (msg : String)
  /-- The object `{"status":"started","id": id}`. -/
  | started (id : String)
  /-- The object `{"status":"error","error": err}`. -/
  | transcriptionError (err : String)
  /-- The object `{"status":"success","transcript": text,"duration": duration}`. -/
  | success (transcript duration : String)
deriving DecidableEq, Repr

/-- External calls issued by the loop, with their results. -/
inductive Effect where
  /-- A successful `os.Create(filename)` returning sink `h`. -/
  | sinkCreate (h : Nat) (filename : String)
  /-- A failed `os.Create(filename)`. -/
  | sinkCreateFailed (filename : String)
  /-- The call `W.Write(data)` on sink `h`, returning `n` and an error iff `failed`. -/
  | sinkWrite (h : Nat) (data : Bytes) (n : Int) (failed : Bool)
  /-- The call `W.Close()` on sink `h`. -/
  | sinkClose (h : Nat)
  /-- A call of `ai.TranscribeActiveStream` on the stream with this file name. -/
  | transcribe (filename : String)
  /-- A JSON message written to the client. -/
  | reply (r : Reply)
deriving DecidableEq, Repr

/-- Outcomes of the external calls that handling one frame may make. -/
structure World where
  /-- Whether `os.Create` fails. -/
  createFails : Bool
  /-- The count returned by `W.Write`. -/
  writeN : Int
  /-- Whether `W.Write` returns an error. -/
  writeFails : Bool
  /-- The behaviour of the transcription backend. -/
  backend : Backend
deriving DecidableEq, Repr

/-- One iteration of the read loop: the frame read and the outcomes of the
external calls made while handling it. -/
structure Input where
  frame : Frame
  world : World
deriving DecidableEq, Repr

/-- State of a connection between two frames: the loop variable `stream` and
the number of sinks created so far on the connection. -/
structure Conn where
  stream : Option ActiveStream
  nextSink : Nat
deriving DecidableEq, Repr

/-- The state in which the loop starts: `stream` is nil. -/
def Conn.init : Conn := { stream := none, nextSink := 0 }

/-- The sink of the active session: the condition `stream != nil && stream.W != nil`
holds exactly when this is `some h`. -/
def Conn.sink (c : Conn) : Option Nat :=
  match c.stream with
  | none => none
  | some s => s.W

/-- The Recording state: `stream != nil && stream.W != nil`. -/
def Conn.recording (c : Conn) : Bool := c.sink.isSome

/-- The method `replyError`. -/
def replyError (msg : String) : Effect := .reply (.wsError msg)

/-! ## The loop body -/

/-- The branch `case "start"` of `ServeHTTP`. -/
def handleStart (opt : Options) (c : Conn) (env : ControlEnvelope) (w : World) :
    Conn × List Effect :=
  if env.ID = "" ∨ env.Codec = "" then (c, [replyError "missing id or codec"])
  else if isAllowedCodec env.Codec = false then (c, [replyError "unsupported codec"])
  else
    match c.sink with
    | some _ => (c, [replyError "stream already active"])
    | none =>
      let filename := filepathJoin opt.OutDir (env.ID ++ "." ++ codecToExt env.Codec)
      if w.createFails then
        (c, [.sinkCreateFailed filename, replyError "failed to create sink"])
      else
        let stream : ActiveStream :=
          { ID := env.ID, Codec := ToLower env.Codec, W := some c.nextSink,
            Written := 0, Filename := filename }
        ({ stream := some stream, nextSink := c.nextSink + 1 },
          [.sinkCreate c.nextSink filename, .reply (.started stream.ID)])

/-- The branch `case "end"` of `ServeHTTP`.  (A nil response together with a
nil error is never returned by `TranscribeActiveStream`; that case is listed
only to make the match complete.) -/
def handleEnd (c : Conn) (w : World) : Conn × List Effect :=
  match c.stream with
  | none => (c, [replyError "no active stream"])
  | some s =>
    match s.W with
    | none => (c, [replyError "no active stream"])
    | some h =>
      let res := TranscribeActiveStream (some s) w.backend
      let answer : Reply :=
        match res.2 with
        | some err => .transcriptionError err
        | none =>
          match res.1 with
          | some resp => .success (jsonText resp.JSON) resp.Duration
          | none => .success "" ""
      ({ c with stream := none }, [.sinkClose h, .transcribe s.Filename, .reply answer])

/-- The branch `case websocket.MessageBinary` of `ServeHTTP`. -/
def handleBinary (opt : Options) (c : Conn) (data : Bytes) (w : World) :
    Conn × List Effect :=
  match c.stream with
  | none => (c, [replyError "no active stream for this binary frame"])
  | some s =>
    match s.W with
    | none => (c, [replyError "no active stream for this binary frame"])
    | some h =>
      if w.writeFails then
        (c, [.sinkWrite h data w.writeN true, replyError "failed to write chunk"])
      else
        let written := wrapInt64 (s.Written + w.writeN)
        if opt.MaxTotalBytes > 0 ∧ written > opt.MaxTotalBytes then
          ({ c with stream := none },
            [.sinkWrite h data w.writeN false, .sinkClose h,
              replyError "stream too large; closed"])
        else
          ({ c with stream := some { s with Written := written } },
            [.sinkWrite h data w.writeN false])

/-- The body of the loop of `ServeHTTP` after a successful read. -/
def handleFrame (opt : Options) (c : Conn) (i : Input) : Conn × List Effect :=
  match i.frame with
  | .text none => (c, [replyError "invalid control json"])
  | .text (some env) =>
    if ToLower env.Event = "start" then handleStart opt c env i.world
    else if ToLower env.Event = "end" then handleEnd c i.world
    else (c, [replyError "unsupported event"])
  | .binary data => handleBinary opt c data i.world
  | .other => (c, [replyError "unsupported frame type"])

/-- The loop of `ServeHTTP` over the frames read so far, from state `c`: the
state reached and the effects issued, in order. -/
def run (opt : Options) (c : Conn) : List Input → Conn × List Effect
  | [] => (c, [])
  | i :: rest =>
    let r := handleFrame opt c i
    let r2 := run opt r.1 rest
    (r2.1, r.2 ++ r2.2)

/-- The branch taken when `conn.Read` fails (read error or idle timeout):
the sink of an active session is closed and the loop returns. -/
def readError (c : Conn) : List Effect :=
  match c.stream with
  | none => []
  | some s =>
    match s.W with
    | none => []
    | some h => [.sinkClose h]

/-- A whole connection: the frames are handled in order from the initial
state, then `conn.Read` fails.  The result is every effect issued, in order. -/
def serve (opt : Options) (inputs : List Input) : List Effect :=
  let r := run opt Conn.init inputs
  r.2 ++ readError r.1


/-! ## Sample data -/

/-- Options with no cumulative limit. -/
def sampleOptions : Options := { MaxTotalBytes := 0, OutDir := "/tmp" }

/-- Options whose output directory is `/tmp/gv`. -/
def nestedOptions : Options := { MaxTotalBytes := 0, OutDir := "/tmp/gv" }

/-- A world in which every external call succeeds and the backend answers 200. -/
def calmWorld : World :=
  { createFails := false, writeN := 0, writeFails := false,
    backend := .responded 200 "" (some [("text", .str "hello")]) "1s" }

/-- A text frame carrying a `start` envelope. -/
def startInput (id codec : String) : Input :=
  { frame := .text (some { Event := "start", ID := id, Codec := codec }), world := calmWorld }

/-- A binary frame whose write reports `n` bytes, failing iff `failed`. -/
def binaryInput (data : Bytes) (n : Int) (failed : Bool) : Input :=
  { frame := .binary data, world := { calmWorld with writeN := n, writeFails := failed } }

/-- The Recording state reached from the initial state by `start` with id `a`, codec `wav`. -/
def sampleRecording : Conn := (run sampleOptions Conn.init [startInput "a" "wav"]).1

/-- The bytes carried by a binary frame (empty for any other frame). -/
def Input.payload (i : Input) : Bytes :=
  match i.frame with
  | .binary d => d
  | _ => []

/-- A binary frame whose sink write succeeds and reports the full frame length. -/
def Input.fullWrite (i : Input) : Prop :=
  i.frame = .binary i.payload ∧ i.world.writeFails = false ∧ i.world.writeN = i.payload.length

instance (i : Input) : Decidable i.fullWrite := by
  unfold Input.fullWrite
  infer_instance

/-- The sum of the frame sizes. -/
def totalSize (ins : List Input) : Int := (ins.map fun i => (i.payload.length : Int)).sum

/-- A frame that opens a session when received while Idle: a `start` with
non-empty id and codec, a whitelisted codec and a successful sink creation. -/
def Input.opensSession (i : Input) : Bool :=
  match i.frame with
  | .text (some env) =>
    ToLower env.Event == "start" && env.ID != "" && env.Codec != "" &&
      isAllowedCodec env.Codec && !i.world.createFails
  | _ => false

/-! ## Reading a trace of effects -/

/-- The sinks created in a trace, in order of creation. -/
def created (tr : List Effect) : List Nat :=
  tr.filterMap fun e =>
    match e with
    | .sinkCreate h _ => some h
    | _ => none

/-- How many times sink `h` is closed in a trace. -/
def closeCount (h : Nat) (tr : List Effect) : Nat := tr.count (.sinkClose h)

/-- The sinks created and not closed in a trace. -/
def openSinks (tr : List Effect) : List Nat :=
  (created tr).filter fun h => closeCount h tr = 0

/-- The sum of the counts reported by all writes to sink `h`, failed ones included. -/
def reportedBytes (h : Nat) (tr : List Effect) : Int :=
  (tr.filterMap fun e =>
    match e with
    | .sinkWrite h2 _ n _ => if h2 = h then some n else none
    | _ => none).sum

/-- The sum of the counts reported by the writes to sink `h` that returned no error. -/
def acceptedBytes (h : Nat) (tr : List Effect) : Int :=
  (tr.filterMap fun e =>
    match e with
    | .sinkWrite h2 _ n false => if h2 = h then some n else none
    | _ => none).sum

/-- Whether an effect is a write to sink `h`. -/
def isWriteTo (h : Nat) : Effect → Bool
  | .sinkWrite h2 _ _ _ => h2 == h
  | _ => false

/-- Whether some sink is written to after it has been closed. -/
def writtenAfterClose : List Effect → Bool
  | [] => false
  | .sinkClose h :: rest => rest.any (isWriteTo h) || writtenAfterClose rest
  | _ :: rest => writtenAfterClose rest

/-- Whether an effect is a call on a sink: a successful create, a write or a close. -/
def Effect.isSinkCall : Effect → Bool
  | .sinkCreate _ _ => true
  | .sinkWrite _ _ _ _ => true
  | .sinkClose _ => true
  | _ => false

/-- One external call of the loop and its effect on the connection state. -/
inductive Atom : Conn → Effect → Conn → Prop where
  | neutral (c : Conn) (e : Effect) : e.isSinkCall = false → Atom c e c
  | create (c : Conn) (s : ActiveStream) (f : String) :
      c.sink = none → s.W = some c.nextSink → s.Written = 0 →
      Atom c (.sinkCreate c.nextSink f) { stream := some s, nextSink := c.nextSink + 1 }
  | writeOk (c : Conn) (s : ActiveStream) (h : Nat) (d : Bytes) (n : Int) :
      c.stream = some s → s.W = some h →
      Atom c (.sinkWrite h d n false)
        { c with stream := some { s with Written := wrapInt64 (s.Written + n) } }
  | writeFailed (c : Conn) (s : ActiveStream) (h : Nat) (d : Bytes) (n : Int) :
      c.stream = some s → s.W = some h → Atom c (.sinkWrite h d n true) c
  | close (c : Conn) (s : ActiveStream) (h : Nat) :
      c.stream = some s → s.W = some h → Atom c (.sinkClose h) { c with stream := none }

/-- A sequence of external calls leading from one connection state to another. -/
inductive Steps : Conn → List Effect → Conn → Prop where
  | nil (c : Conn) : Steps c [] c
  | cons {c c2 c3 : Conn} {e : Effect} {es : List Effect} :
      Atom c e c2 → Steps c2 es c3 → Steps c (e :: es) c3

/-- What holds of a connection state and the trace of effects that led to it. -/
structure Inv (c : Conn) (tr : List Effect) : Prop where
  created_eq : created tr = List.range c.nextSink
  sink_some : ∀ s, c.stream = some s → ∃ h, s.W = some h
  sink_lt : ∀ h, c.sink = some h → h < c.nextSink
  close_eq : ∀ h, closeCount h tr = if h < c.nextSink ∧ c.sink ≠ some h then 1 else 0
  fresh : ∀ h, c.nextSink ≤ h → acceptedBytes h tr = 0
  written_eq : ∀ s h, c.stream = some s → s.W = some h →
    s.Written = wrapInt64 (acceptedBytes h tr)
  ordered : writtenAfterClose tr = false

/-- A text frame carrying an `end` envelope, with the given backend behaviour. -/
def endInput (b : Backend) : Input :=
  { frame := .text (some { Event := "end", ID := "", Codec := "" }),
    world := { calmWorld with backend := b } }

/-- The ways in which handling one frame can change the loop variable `stream`. -/
inductive StreamChange (opt : Options) (c : Conn) (i : Input) (r : Conn × List Effect) : Prop where
  | same : r.1.stream = c.stream → (∀ h f, Effect.sinkCreate h f ∉ r.2) → StreamChange opt c i r
  | dropped : r.1.stream = none → (∀ h f, Effect.sinkCreate h f ∉ r.2) → StreamChange opt c i r
  | counted (s : ActiveStream) : c.stream = some s →
      r.1.stream = some { s with Written := wrapInt64 (s.Written + i.world.writeN) } →
      ¬ (opt.MaxTotalBytes > 0 ∧ wrapInt64 (s.Written + i.world.writeN) > opt.MaxTotalBytes) →
      (∀ h f, Effect.sinkCreate h f ∉ r.2) → StreamChange opt c i r
  | opened (env : ControlEnvelope) : i.frame = .text (some env) →
      isAllowedCodec env.Codec = true →
      r.1.stream = some { ID := env.ID, Codec := ToLower env.Codec,
                          Filename := filepathJoin opt.OutDir (env.ID ++ "." ++ ToLower env.Codec),
                          W := some c.nextSink, Written := 0 } →
      r.2 = [.sinkCreate c.nextSink
              (filepathJoin opt.OutDir (env.ID ++ "." ++ ToLower env.Codec)),
             .reply (.started env.ID)] →
      StreamChange opt c i r

/-- What holds of the active stream after any frame sequence: its codec is a
whitelist word, its file name is made of the output directory, the id, a dot
and the codec, its sink was created under that name, and with a positive
MaxTotalBytes its counter is within the limit. -/
def StreamInv (opt : Options) (c : Conn) (tr : List Effect) : Prop :=
  ∀ s, c.stream = some s →
    s.Codec ∈ ["opus", "aac", "wav"] ∧
    s.Filename = filepathJoin opt.OutDir (s.ID ++ "." ++ s.Codec) ∧
    (∃ h, s.W = some h ∧ Effect.sinkCreate h s.Filename ∈ tr) ∧
    (0 < opt.MaxTotalBytes → s.Written ≤ opt.MaxTotalBytes)


/-- The replies written to the client in a trace, in order. -/
def replies (tr : List Effect) : List Reply :=
  tr.filterMap fun e =>
    match e with
    | .reply r => some r
    | _ => none

/-- A frame handled without any reply: a binary frame received while Recording
whose write succeeds and does not take the counter above a positive limit. -/
def silent (opt : Options) (c : Conn) (i : Input) : Bool :=
  match i.frame with
  | .binary _ =>
    match c.stream with
    | some s =>
      s.W.isSome && !i.world.writeFails &&
        !(decide (opt.MaxTotalBytes > 0 ∧
            wrapInt64 (s.Written + i.world.writeN) > opt.MaxTotalBytes))
    | none => false
  | _ => false

/-- The replies triggered by each frame of a sequence, frame by frame. -/
def frameReplies (opt : Options) : Conn → List Input → List (List Reply)
  | _, [] => []
  | c, i :: rest =>
    replies (handleFrame opt c i).2 :: frameReplies opt (handleFrame opt c i).1 rest

/-! ## Basic facts -/

theorem sink_eq_none_of_not_recording {c : Conn} (h : c.recording = false) : c.sink = none := by
  simpa [Conn.recording] using h

theorem allowed_ne_empty {codec : String} (h : isAllowedCodec codec = true) : codec ≠ "" := by
  intro he
  subst he
  revert h
  decide

theorem allowed_iff (codec : String) :
    isAllowedCodec codec = true ↔ ToLower codec ∈ ["opus", "aac", "wav"] := by
  simp [isAllowedCodec]

/-! ## Single frames -/

/-- C3: in the Idle state a `start` (any case) with non-empty id, whitelisted
codec and successful sink creation leads to Recording with the id unchanged,
the codec lower-cased and counter 0; one sink is created and the only reply is
the `started` acknowledgment carrying the id. -/
theorem start_idle_opens_session (opt : Options) (c : Conn) (env : ControlEnvelope) (w : World)
    (hidle : c.recording = false) (hev : ToLower env.Event = "start") (hid : env.ID ≠ "")
    (hcodec : ToLower env.Codec ∈ ["opus", "aac", "wav"]) (hcreate : w.createFails = false) :
    let r := handleFrame opt c { frame := .text (some env), world := w }
    let filename := filepathJoin opt.OutDir (env.ID ++ "." ++ ToLower env.Codec)
    r.1.stream = some { ID := env.ID, Codec := ToLower env.Codec, Filename := filename,
                        W := some c.nextSink, Written := 0 } ∧
    r.1.recording = true ∧
    r.2 = [.sinkCreate c.nextSink filename, .reply (.started env.ID)] := by
  have hal : isAllowedCodec env.Codec = true := (allowed_iff _).2 hcodec
  have hne := allowed_ne_empty hal
  have hs := sink_eq_none_of_not_recording hidle
  simp [handleFrame, handleStart, hev, hid, hne, hal, hs, hcreate, codecToExt]
  simp [Conn.recording, Conn.sink]

theorem start_idle_opens_session_witness :
    (handleFrame nestedOptions Conn.init (startInput "../b" "WAV")).1.stream =
        some { ID := "../b", Codec := "wav", Filename := "/tmp/b.wav", W := some 0,
               Written := 0 } ∧
      (handleFrame nestedOptions Conn.init (startInput "../b" "WAV")).1.recording = true ∧
      (handleFrame nestedOptions Conn.init (startInput "../b" "WAV")).2 =
        [.sinkCreate 0 "/tmp/b.wav", .reply (.started "../b")] :=
  start_idle_opens_session nestedOptions Conn.init
    { Event := "start", ID := "../b", Codec := "WAV" } calmWorld
    (by decide) (by decide) (by decide) (by decide) (by decide)

/-- C4: a `start` whose id is empty, whose codec is empty or whose codec,
lower-cased, is not one of opus, aac, wav is answered by one error reply, the
connection state is returned unchanged and no sink is created. -/
theorem start_invalid_rejected (opt : Options) (c : Conn) (env : ControlEnvelope) (w : World)
    (hev : ToLower env.Event = "start")
    (hbad : env.ID = "" ∨ env.Codec = "" ∨ ToLower env.Codec ∉ ["opus", "aac", "wav"]) :
    ∃ msg, (msg = "missing id or codec" ∨ msg = "unsupported codec") ∧
      handleFrame opt c { frame := .text (some env), world := w } = (c, [replyError msg]) := by
  by_cases h1 : env.ID = "" ∨ env.Codec = ""
  · exact ⟨"missing id or codec", Or.inl rfl, by simp [handleFrame, handleStart, hev, h1]⟩
  · have h2 : isAllowedCodec env.Codec = false := by
      have h3 : ToLower env.Codec ∉ ["opus", "aac", "wav"] := by tauto
      cases hc : isAllowedCodec env.Codec
      · rfl
      · exact absurd ((allowed_iff _).1 hc) h3
    exact ⟨"unsupported codec", Or.inr rfl, by simp [handleFrame, handleStart, hev, h1, h2]⟩

theorem start_invalid_rejected_witness :
    ∃ msg, (msg = "missing id or codec" ∨ msg = "unsupported codec") ∧
      handleFrame sampleOptions Conn.init (startInput "a" "mp3") =
        (Conn.init, [replyError msg]) :=
  start_invalid_rejected sampleOptions Conn.init { Event := "start", ID := "a", Codec := "mp3" }
    calmWorld (by decide) (by decide)

/-- C5: a `start` received while Recording, whatever its id and codec, is
answered by one error reply and nothing else: the connection state (the
session with its id, codec, sink and counter) is returned unchanged, and no
sink is created, written to or closed. -/
theorem start_recording_rejected (opt : Options) (c : Conn) (env : ControlEnvelope) (w : World)
    (hrec : c.recording = true) (hev : ToLower env.Event = "start") :
    ∃ msg, handleFrame opt c { frame := .text (some env), world := w } = (c, [replyError msg]) := by
  obtain ⟨h, hh⟩ : ∃ h, c.sink = some h := by
    simpa [Conn.recording, Option.isSome_iff_exists] using hrec
  by_cases h1 : env.ID = "" ∨ env.Codec = ""
  · exact ⟨"missing id or codec", by simp [handleFrame, handleStart, hev, h1]⟩
  · cases h2 : isAllowedCodec env.Codec
    · exact ⟨"unsupported codec", by simp [handleFrame, handleStart, hev, h1, h2]⟩
    · exact ⟨"stream already active", by simp [handleFrame, handleStart, hev, h1, h2, hh]⟩

theorem start_recording_rejected_witness :
    ∃ msg, handleFrame sampleOptions sampleRecording (startInput "b" "opus") =
      (sampleRecording, [replyError msg]) :=
  start_recording_rejected sampleOptions sampleRecording
    { Event := "start", ID := "b", Codec := "opus" } calmWorld (by decide) (by decide)

/-- C6, as stated, fails: in a Recording state a `start` without an id is
answered "missing id or codec", not "stream already active". -/
theorem start_recording_reply_counterexample :
    sampleRecording.recording = true ∧
      (handleFrame sampleOptions sampleRecording (startInput "" "wav")).2 =
        [replyError "missing id or codec"] ∧
      (handleFrame sampleOptions sampleRecording (startInput "" "wav")).2 ≠
        [replyError "stream already active"] := by
  decide

/-- C6, amended: a `start` received while Recording is answered exactly by the
error "missing id or codec" when its id or codec is empty, otherwise by
"unsupported codec" when its codec is outside the whitelist, and by
"stream already active" in every remaining case. -/
theorem start_recording_reply (opt : Options) (c : Conn) (env : ControlEnvelope) (w : World)
    (hrec : c.recording = true) (hev : ToLower env.Event = "start") :
    (handleFrame opt c { frame := .text (some env), world := w }).2 =
      [replyError (if env.ID = "" ∨ env.Codec = "" then "missing id or codec"
        else if ToLower env.Codec ∉ ["opus", "aac", "wav"] then "unsupported codec"
        else "stream already active")] := by
  obtain ⟨h, hh⟩ : ∃ h, c.sink = some h := by
    simpa [Conn.recording, Option.isSome_iff_exists] using hrec
  by_cases h1 : env.ID = "" ∨ env.Codec = ""
  · simp [handleFrame, handleStart, hev, h1]
  · cases h2 : isAllowedCodec env.Codec
    · have h3 : ToLower env.Codec ∉ ["opus", "aac", "wav"] := fun hm => by
        rw [(allowed_iff _).2 hm] at h2
        exact Bool.noConfusion h2
      rw [if_neg h1, if_pos h3]
      simp [handleFrame, handleStart, hev, h1, h2]
    · have h3 : ¬ ToLower env.Codec ∉ ["opus", "aac", "wav"] := not_not.2 ((allowed_iff _).1 h2)
      rw [if_neg h1, if_neg h3]
      simp [handleFrame, handleStart, hev, h1, h2, hh]

theorem start_recording_reply_witness :
    (handleFrame sampleOptions sampleRecording (startInput "b" "opus")).2 =
      [replyError "stream already active"] :=
  start_recording_reply sampleOptions sampleRecording
    { Event := "start", ID := "b", Codec := "opus" } calmWorld (by decide) (by decide)

/-- C7: a binary frame received while Idle is answered by one error reply, the
state is returned unchanged (still Idle) and no sink is created, written to or
closed. -/
theorem binary_idle_rejected (opt : Options) (c : Conn) (data : Bytes) (w : World)
    (hidle : c.recording = false) :
    handleFrame opt c { frame := .binary data, world := w } =
        (c, [replyError "no active stream for this binary frame"]) ∧
      (handleFrame opt c { frame := .binary data, world := w }).1.recording = false := by
  have hs := sink_eq_none_of_not_recording hidle
  have key : handleFrame opt c { frame := .binary data, world := w } =
      (c, [replyError "no active stream for this binary frame"]) := by
    unfold Conn.sink at hs
    unfold handleFrame handleBinary
    split at hs
    · simp [*]
    · simp [*]
  exact ⟨key, by rw [key]; exact hidle⟩

theorem binary_idle_rejected_witness :
    handleFrame sampleOptions Conn.init (binaryInput [1, 2, 3] 3 false) =
        (Conn.init, [replyError "no active stream for this binary frame"]) ∧
      (handleFrame sampleOptions Conn.init (binaryInput [1, 2, 3] 3 false)).1.recording = false :=
  binary_idle_rejected sampleOptions Conn.init [1, 2, 3]
    { calmWorld with writeN := 3, writeFails := false } (by decide)

theorem wrapInt64_of_fits {x : Int} (h1 : -2 ^ 63 ≤ x) (h2 : x < 2 ^ 63) : wrapInt64 x = x := by
  unfold wrapInt64
  omega

theorem totalSize_nonneg (ins : List Input) : 0 ≤ totalSize ins := by
  induction ins with
  | nil => simp [totalSize]
  | cons i rest ih =>
    simp only [totalSize, List.map_cons, List.sum_cons] at ih ⊢
    omega

theorem totalSize_cons (i : Input) (rest : List Input) :
    totalSize (i :: rest) = (i.payload.length : Int) + totalSize rest := by
  simp [totalSize]

theorem run_cons (opt : Options) (c : Conn) (i : Input) (rest : List Input) :
    run opt c (i :: rest) =
      ((run opt (handleFrame opt c i).1 rest).1,
        (handleFrame opt c i).2 ++ (run opt (handleFrame opt c i).1 rest).2) := rfl

theorem handleFrame_fullWrite (opt : Options) (c : Conn) (s : ActiveStream) (h : Nat)
    (i : Input) (hs : c.stream = some s) (hW : s.W = some h) (hfull : i.fullWrite)
    (hnn : 0 ≤ s.Written) (hfit : s.Written + (i.payload.length : Int) < 2 ^ 63)
    (hlim : 0 < opt.MaxTotalBytes → s.Written + (i.payload.length : Int) ≤ opt.MaxTotalBytes) :
    handleFrame opt c i =
      ({ c with stream := some { s with Written := s.Written + (i.payload.length : Int) } },
        [Effect.sinkWrite h i.payload i.payload.length false]) := by
  obtain ⟨frame, world⟩ := i
  obtain ⟨hf, hw, hn⟩ := hfull
  cases frame with
  | text env => simp [Input.payload] at hf
  | other => simp [Input.payload] at hf
  | binary d =>
    simp only [Input.payload] at hw hn hfit hlim ⊢
    have hwrap : wrapInt64 (s.Written + (d.length : Int)) = s.Written + (d.length : Int) :=
      wrapInt64_of_fits (by omega) hfit
    have hno : ¬ (opt.MaxTotalBytes > 0 ∧ s.Written + (d.length : Int) > opt.MaxTotalBytes) := by
      intro hx
      have := hlim hx.1
      omega
    simp [handleFrame, handleBinary, hs, hW, hw, hn, hwrap, hno]

/-- C8: from a Recording state, N binary frames whose writes all succeed and
report the full frame length, with the total within the size limit (and within
the range of the 64-bit counter), leave the state Recording with the counter
increased by exactly s1+...+sN (so it equals that sum for a counter that was
0), and the sink receives exactly the frames, unchanged and in order. -/
theorem binary_frames_accumulate (opt : Options) (ins : List Input) :
    ∀ (c : Conn) (s : ActiveStream) (h : Nat), c.stream = some s → s.W = some h →
    (∀ i ∈ ins, i.fullWrite) → 0 ≤ s.Written → s.Written + totalSize ins < 2 ^ 63 →
    (0 < opt.MaxTotalBytes → s.Written + totalSize ins ≤ opt.MaxTotalBytes) →
    (run opt c ins).1 =
        { c with stream := some { s with Written := s.Written + totalSize ins } } ∧
      (run opt c ins).1.recording = true ∧
      (run opt c ins).2 =
        ins.map (fun i => Effect.sinkWrite h i.payload i.payload.length false) := by
  induction ins with
  | nil =>
    intro c s h hs hW _ _ _ _
    obtain ⟨stream, next⟩ := c
    obtain ⟨id, codec, file, W, written⟩ := s
    simp only at hs hW
    subst hs hW
    simp [run, totalSize, Conn.recording, Conn.sink]
  | cons i rest ih =>
    intro c s h hs hW hfull hnn hfit hlim
    have hrest := totalSize_nonneg rest
    rw [totalSize_cons] at hfit hlim
    have hstep := handleFrame_fullWrite opt c s h i hs hW (hfull i (List.mem_cons_self _ _)) hnn
      (by omega) (fun hp => by have := hlim hp; omega)
    obtain ⟨e1, e2, e3⟩ := ih (handleFrame opt c i).1
      { s with Written := s.Written + (i.payload.length : Int) } h (by rw [hstep]) hW
      (fun j hj => hfull j (List.mem_cons_of_mem _ hj)) (by simp only; omega)
      (by simp only; omega) (fun hp => by have := hlim hp; simp only; omega)
    rw [run_cons]
    refine ⟨?_, e2, ?_⟩
    · rw [e1, hstep, totalSize_cons]
      simp [add_assoc]
    · rw [e3, hstep]
      simp

theorem binary_frames_accumulate_witness :
    (run sampleOptions sampleRecording
        [binaryInput [1, 2, 3] 3 false, binaryInput [4, 5] 2 false]).1 =
        { stream := some { ID := "a", Codec := "wav", Filename := "/tmp/a.wav", W := some 0,
                           Written := 5 },
          nextSink := 1 } ∧
      (run sampleOptions sampleRecording
        [binaryInput [1, 2, 3] 3 false, binaryInput [4, 5] 2 false]).1.recording = true ∧
      (run sampleOptions sampleRecording
        [binaryInput [1, 2, 3] 3 false, binaryInput [4, 5] 2 false]).2 =
        [.sinkWrite 0 [1, 2, 3] 3 false, .sinkWrite 0 [4, 5] 2 false] :=
  binary_frames_accumulate sampleOptions
    [binaryInput [1, 2, 3] 3 false, binaryInput [4, 5] 2 false] sampleRecording
    { ID := "a", Codec := "wav", Filename := "/tmp/a.wav", W := some 0, Written := 0 } 0
    (by decide) (by decide) (by decide) (by decide) (by decide) (by decide)

theorem handleEnd_idle (c : Conn) (w : World) (hs : c.sink = none) :
    handleEnd c w = (c, [replyError "no active stream"]) := by
  unfold Conn.sink at hs
  unfold handleEnd
  split at hs
  · simp [*]
  · simp [*]

theorem handleBinary_idle (opt : Options) (c : Conn) (data : Bytes) (w : World)
    (hs : c.sink = none) :
    handleBinary opt c data w = (c, [replyError "no active stream for this binary frame"]) := by
  unfold Conn.sink at hs
  unfold handleBinary
  split at hs
  · simp [*]
  · simp [*]

theorem handleFrame_idle_state (opt : Options) (c : Conn) (i : Input) (hs : c.sink = none)
    (hno : i.opensSession = false) : (handleFrame opt c i).1 = c := by
  obtain ⟨frame, w⟩ := i
  cases frame with
  | other => rfl
  | binary d => simp [handleFrame, handleBinary_idle opt c d w hs]
  | text env =>
    cases env with
    | none => rfl
    | some env =>
      by_cases h1 : ToLower env.Event = "start"
      · simp only [handleFrame, h1, if_true, handleStart, hs]
        simp only [Input.opensSession, h1, beq_self_eq_true, Bool.true_and] at hno
        by_cases h2 : env.ID = "" ∨ env.Codec = ""
        · simp [h2]
        · cases h3 : isAllowedCodec env.Codec
          · simp [h2]
          · cases h4 : w.createFails
            · push_neg at h2
              simp [h2.1, h2.2, h3, h4] at hno
            · simp [h2]
      · by_cases h2 : ToLower env.Event = "end"
        · simp [handleFrame, h1, h2, handleEnd_idle c w hs]
        · simp [handleFrame, h1, h2]

theorem run_idle_state (opt : Options) (ins : List Input) :
    ∀ c : Conn, c.sink = none → (∀ i ∈ ins, i.opensSession = false) → (run opt c ins).1 = c := by
  induction ins with
  | nil => intro c _ _; rfl
  | cons i rest ih =>
    intro c hs hno
    have h1 := handleFrame_idle_state opt c i hs (hno i (List.mem_cons_self _ _))
    rw [run_cons]
    simp only [h1]
    exact ih c hs (fun j hj => hno j (List.mem_cons_of_mem _ hj))

/-- C10: with a positive MaxTotalBytes, a binary frame whose successful write
takes the counter above the limit produces, after the write, exactly one sink
close and exactly one error reply ("stream too large; closed") and leaves the
connection Idle; after any further frames none of which opens a session,
a binary frame is rejected with one error reply and no sink call, and a valid
`start` whose sink creation succeeds opens a new session. -/
theorem limit_exceeded_closes (opt : Options) (c : Conn) (s : ActiveStream) (h : Nat)
    (data : Bytes) (w : World) (hs : c.stream = some s) (hW : s.W = some h)
    (hok : w.writeFails = false) (hmax : 0 < opt.MaxTotalBytes)
    (hover : opt.MaxTotalBytes < wrapInt64 (s.Written + w.writeN)) :
    let r := handleFrame opt c { frame := .binary data, world := w }
    r.2 = [.sinkWrite h data w.writeN false, .sinkClose h,
            replyError "stream too large; closed"] ∧
    r.1 = { c with stream := none } ∧
    r.1.recording = false ∧
    (∀ (ins : List Input) (d : Bytes) (w2 : World), (∀ i ∈ ins, i.opensSession = false) →
      handleFrame opt (run opt r.1 ins).1 { frame := .binary d, world := w2 } =
        (r.1, [replyError "no active stream for this binary frame"])) ∧
    (∀ (ins : List Input) (i : Input), (∀ j ∈ ins, j.opensSession = false) →
      i.opensSession = true →
      (handleFrame opt (run opt r.1 ins).1 i).1.recording = true) := by
  have key : handleFrame opt c { frame := .binary data, world := w } =
      ({ c with stream := none },
        [.sinkWrite h data w.writeN false, .sinkClose h,
          replyError "stream too large; closed"]) := by
    simp [handleFrame, handleBinary, hs, hW, hok, hmax, hover]
  have hidle : ({ c with stream := none } : Conn).sink = none := rfl
  simp only [key]
  refine ⟨trivial, trivial, rfl, ?_, ?_⟩
  · intro ins d w2 hno
    rw [run_idle_state opt ins _ hidle hno]
    simp [handleFrame, handleBinary]
  · intro ins i hno hopen
    rw [run_idle_state opt ins _ hidle hno]
    obtain ⟨frame, w2⟩ := i
    cases frame with
    | other => simp [Input.opensSession] at hopen
    | binary d => simp [Input.opensSession] at hopen
    | text env =>
      cases env with
      | none => simp [Input.opensSession] at hopen
      | some env =>
        simp only [Input.opensSession, Bool.and_eq_true, beq_iff_eq, bne_iff_ne, ne_eq,
          Bool.not_eq_true', Bool.not_eq_eq_eq_not, Bool.not_true] at hopen
        obtain ⟨⟨⟨⟨h1, h2⟩, h3⟩, h4⟩, h5⟩ := hopen
        simp [handleFrame, handleStart, h1, h2, h3, h4, h5, Conn.sink, Conn.recording]

theorem limit_exceeded_closes_witness :
    (handleFrame { MaxTotalBytes := 4, OutDir := "/tmp" } sampleRecording
        (binaryInput [1, 2, 3, 4, 5] 5 false)).2 =
      [.sinkWrite 0 [1, 2, 3, 4, 5] 5 false, .sinkClose 0,
        replyError "stream too large; closed"] ∧
    (handleFrame { MaxTotalBytes := 4, OutDir := "/tmp" } sampleRecording
        (binaryInput [1, 2, 3, 4, 5] 5 false)).1 = { stream := none, nextSink := 1 } :=
  And.intro (limit_exceeded_closes { MaxTotalBytes := 4, OutDir := "/tmp" } sampleRecording
    { ID := "a", Codec := "wav", Filename := "/tmp/a.wav", W := some 0, Written := 0 } 0
    [1, 2, 3, 4, 5] { calmWorld with writeN := 5, writeFails := false }
    (by decide) (by decide) (by decide) (by decide) (by decide)).1
  (limit_exceeded_closes { MaxTotalBytes := 4, OutDir := "/tmp" } sampleRecording
    { ID := "a", Codec := "wav", Filename := "/tmp/a.wav", W := some 0, Written := 0 } 0
    [1, 2, 3, 4, 5] { calmWorld with writeN := 5, writeFails := false }
    (by decide) (by decide) (by decide) (by decide) (by decide)).2.1

/-! ## Invariant of the read loop -/

theorem created_append (a b : List Effect) : created (a ++ b) = created a ++ created b := by
  simp [created]

theorem closeCount_append (h : Nat) (a b : List Effect) :
    closeCount h (a ++ b) = closeCount h a + closeCount h b := by
  simp [closeCount]

theorem acceptedBytes_append (h : Nat) (a b : List Effect) :
    acceptedBytes h (a ++ b) = acceptedBytes h a + acceptedBytes h b := by
  simp [acceptedBytes]

theorem writtenAfterClose_append_single (tr : List Effect) (e : Effect)
    (he : ∀ h, isWriteTo h e = true → closeCount h tr = 0) :
    writtenAfterClose (tr ++ [e]) = writtenAfterClose tr := by
  induction tr with
  | nil => cases e <;> simp [writtenAfterClose]
  | cons x rest ih =>
    have hrest : ∀ h, isWriteTo h e = true → closeCount h rest = 0 := by
      intro h hw
      have := he h hw
      simp only [closeCount, List.count_cons] at this ⊢
      omega
    cases x with
    | sinkClose h2 =>
      have h3 : writtenAfterClose (.sinkClose h2 :: (rest ++ [e])) =
          ((rest ++ [e]).any (isWriteTo h2) || writtenAfterClose (rest ++ [e])) := rfl
      have h4 : writtenAfterClose (.sinkClose h2 :: rest) =
          (rest.any (isWriteTo h2) || writtenAfterClose rest) := rfl
      rw [List.cons_append, h3, h4, ih hrest, List.any_append]
      cases hw : isWriteTo h2 e
      · simp [hw]
      · have := he h2 hw
        simp [closeCount] at this
    | _ => simpa [writtenAfterClose] using ih hrest

theorem wrapInt64_add (a n : Int) : wrapInt64 (wrapInt64 a + n) = wrapInt64 (a + n) := by
  unfold wrapInt64
  omega

theorem filter_eq_range (n a : Nat) :
    (List.range n).filter (fun h => decide (h = a)) = if a < n then [a] else [] := by
  induction n with
  | zero => simp
  | succ n ih =>
    rw [List.range_succ, List.filter_append, ih]
    by_cases h1 : a < n
    · have : ¬ n = a := by omega
      simp [h1, this, Nat.lt_succ_of_lt h1]
    · by_cases h2 : a = n
      · subst h2; simp
      · have h3 : ¬ a < n + 1 := by omega
        have h4 : ¬ n = a := fun h => h2 h.symm
        simp [h1, h3, h4]

theorem inv_init : Inv Conn.init [] where
  created_eq := rfl
  sink_some := by intro s hs; cases hs
  sink_lt := by intro h hs; cases hs
  close_eq := by intro h; simp [closeCount, Conn.init]
  fresh := by intro h _; rfl
  written_eq := by intro s h hs; cases hs
  ordered := rfl

theorem sink_of_stream {c : Conn} {s : ActiveStream} (hs : c.stream = some s) :
    c.sink = s.W := by
  simp [Conn.sink, hs]

theorem wrapInt64_zero : wrapInt64 0 = 0 := by decide

theorem closeCount_single (h : Nat) (e : Effect) :
    closeCount h [e] = if e = .sinkClose h then 1 else 0 := by
  simp [closeCount, List.count_cons]

theorem inv_neutral {c : Conn} {tr : List Effect} (inv : Inv c tr) (e : Effect)
    (he : e.isSinkCall = false) : Inv c (tr ++ [e]) := by
  have h1 : created [e] = [] := by cases e <;> simp_all [created, Effect.isSinkCall]
  have h2 : ∀ h, closeCount h [e] = 0 := by
    intro h; cases e <;> simp_all [closeCount_single, Effect.isSinkCall]
  have h3 : ∀ h, acceptedBytes h [e] = 0 := by
    intro h; cases e <;> simp_all [acceptedBytes, Effect.isSinkCall]
  have h4 : ∀ h, isWriteTo h e = true → closeCount h tr = 0 := by
    intro h; cases e <;> simp_all [isWriteTo, Effect.isSinkCall]
  exact {
    created_eq := by rw [created_append, h1, List.append_nil]; exact inv.created_eq
    sink_some := inv.sink_some
    sink_lt := inv.sink_lt
    close_eq := by intro h; rw [closeCount_append, h2, Nat.add_zero]; exact inv.close_eq h
    fresh := by intro h hh; rw [acceptedBytes_append, h3, add_zero]; exact inv.fresh h hh
    written_eq := by
      intro s h hs hW
      rw [acceptedBytes_append, h3, add_zero]
      exact inv.written_eq s h hs hW
    ordered := by rw [writtenAfterClose_append_single tr e h4]; exact inv.ordered }

theorem inv_create {c : Conn} {tr : List Effect} (inv : Inv c tr) (s : ActiveStream)
    (f : String) (hidle : c.sink = none) (hW : s.W = some c.nextSink) (h0 : s.Written = 0) :
    Inv { stream := some s, nextSink := c.nextSink + 1 } (tr ++ [.sinkCreate c.nextSink f]) := by
  have hsink : ({ stream := some s, nextSink := c.nextSink + 1 } : Conn).sink =
      some c.nextSink := by simp [Conn.sink, hW]
  refine {
    created_eq := ?_, sink_some := ?_, sink_lt := ?_, close_eq := ?_, fresh := ?_,
    written_eq := ?_, ordered := ?_ }
  · rw [created_append, inv.created_eq, List.range_succ]; rfl
  · intro s2 hs2
    simp only [Option.some.injEq] at hs2
    subst hs2
    exact ⟨_, hW⟩
  · intro h hh
    rw [hsink] at hh
    simp only [Option.some.injEq] at hh
    show h < c.nextSink + 1
    omega
  · intro h
    rw [closeCount_append, inv.close_eq h, closeCount_single, hsink, hidle]
    show _ = if h < c.nextSink + 1 ∧ _ then 1 else 0
    by_cases h1 : h < c.nextSink
    · have h2 : ¬ c.nextSink = h := by omega
      have h3 : h < c.nextSink + 1 := by omega
      simp [h1, h2, h3]
    · by_cases h2 : h = c.nextSink
      · subst h2; simp
      · have h3 : ¬ h < c.nextSink + 1 := by omega
        simp [h1, h3]
  · intro h hh
    have hh2 : c.nextSink + 1 ≤ h := hh
    rw [acceptedBytes_append, inv.fresh h (by omega)]
    simp [acceptedBytes]
  · intro s2 h hs2 hW2
    simp only [Option.some.injEq] at hs2
    subst hs2
    rw [hW] at hW2
    simp only [Option.some.injEq] at hW2
    subst hW2
    rw [acceptedBytes_append, inv.fresh _ (le_refl _), h0]
    simp [acceptedBytes, wrapInt64_zero]
  · rw [writtenAfterClose_append_single tr _ (by intro h hw; simp [isWriteTo] at hw)]
    exact inv.ordered

theorem inv_write {c : Conn} {tr : List Effect} (inv : Inv c tr) (s : ActiveStream) (h0 : Nat)
    (d : Bytes) (n : Int) (failed : Bool) (hs : c.stream = some s) (hW : s.W = some h0) :
    Inv { c with stream := some { s with
            Written := if failed then s.Written else wrapInt64 (s.Written + n) } }
      (tr ++ [.sinkWrite h0 d n failed]) := by
  have hsink : c.sink = some h0 := by rw [sink_of_stream hs, hW]
  have hsink2 : ({ c with stream := some { s with
      Written := if failed then s.Written else wrapInt64 (s.Written + n) } } : Conn).sink =
      some h0 := by simp [Conn.sink, hW]
  have hlt : h0 < c.nextSink := inv.sink_lt h0 hsink
  have hopen : closeCount h0 tr = 0 := by
    rw [inv.close_eq h0]; simp [hsink]
  refine {
    created_eq := ?_, sink_some := ?_, sink_lt := ?_, close_eq := ?_, fresh := ?_,
    written_eq := ?_, ordered := ?_ }
  · rw [created_append]
    simpa [created] using inv.created_eq
  · intro s2 hs2
    simp only [Option.some.injEq] at hs2
    subst hs2
    exact ⟨h0, hW⟩
  · intro h hh
    rw [hsink2] at hh
    simp only [Option.some.injEq] at hh
    subst hh
    exact hlt
  · intro h
    rw [closeCount_append, inv.close_eq h, closeCount_single, hsink2, hsink]
    simp
  · intro h hh
    have hh2 : c.nextSink ≤ h := hh
    have hne : ¬ h0 = h := by omega
    rw [acceptedBytes_append, inv.fresh h hh2]
    cases failed <;> simp [acceptedBytes, hne]
  · intro s2 h hs2 hW2
    simp only [Option.some.injEq] at hs2
    subst hs2
    simp only [hW, Option.some.injEq] at hW2
    subst hW2
    have hprev := inv.written_eq s h0 hs hW
    rw [acceptedBytes_append]
    cases failed
    · simp only [Bool.false_eq_true, if_false]
      rw [hprev, wrapInt64_add]
      simp [acceptedBytes]
    · simp only [if_true]
      rw [hprev]
      simp [acceptedBytes]
  · rw [writtenAfterClose_append_single tr _ (by
      intro h hw
      simp only [isWriteTo, beq_iff_eq] at hw
      subst hw
      exact hopen)]
    exact inv.ordered

theorem inv_close {c : Conn} {tr : List Effect} (inv : Inv c tr) (s : ActiveStream) (h0 : Nat)
    (hs : c.stream = some s) (hW : s.W = some h0) :
    Inv { c with stream := none } (tr ++ [.sinkClose h0]) := by
  have hsink : c.sink = some h0 := by rw [sink_of_stream hs, hW]
  have hsink2 : ({ c with stream := none } : Conn).sink = none := rfl
  have hlt : h0 < c.nextSink := inv.sink_lt h0 hsink
  refine {
    created_eq := ?_, sink_some := ?_, sink_lt := ?_, close_eq := ?_, fresh := ?_,
    written_eq := ?_, ordered := ?_ }
  · rw [created_append]
    simpa [created] using inv.created_eq
  · intro s2 hs2
    cases hs2
  · intro h hh
    rw [hsink2] at hh
    cases hh
  · intro h
    rw [closeCount_append, inv.close_eq h, closeCount_single, hsink2, hsink]
    show _ = if h < c.nextSink ∧ _ then 1 else 0
    by_cases h1 : h0 = h
    · subst h1; simp [hlt]
    · have h2 : ¬ h = h0 := fun e => h1 e.symm
      simp [h1, h2]
  · intro h hh
    have hh2 : c.nextSink ≤ h := hh
    rw [acceptedBytes_append, inv.fresh h hh2]
    simp [acceptedBytes]
  · intro s2 h hs2 _
    cases hs2
  · rw [writtenAfterClose_append_single tr _ (by intro h hw; simp [isWriteTo] at hw)]
    exact inv.ordered

theorem inv_atom {c c2 : Conn} {tr : List Effect} {e : Effect} (inv : Inv c tr)
    (a : Atom c e c2) : Inv c2 (tr ++ [e]) := by
  cases a with
  | neutral _ he => exact inv_neutral inv e he
  | create s f hidle hW h0 => exact inv_create inv s f hidle hW h0
  | writeOk s h d n hs hW =>
    have := inv_write inv s h d n false hs hW
    simpa using this
  | writeFailed s h d n hs hW =>
    have := inv_write inv s h d n true hs hW
    have hc : ({ c with stream := some { s with Written := s.Written } } : Conn) = c := by
      obtain ⟨st, nx⟩ := c
      simp only at hs
      subst hs
      rfl
    simpa [hc] using this
  | close s h hs hW => exact inv_close inv s h hs hW

theorem inv_steps {c c2 : Conn} {es : List Effect} (st : Steps c es c2) :
    ∀ tr : List Effect, Inv c tr → Inv c2 (tr ++ es) := by
  induction st with
  | nil c => intro tr inv; simpa using inv
  | cons a _ ih =>
    intro tr inv
    have := ih _ (inv_atom inv a)
    simpa using this

theorem steps_append {c c2 c3 : Conn} {es fs : List Effect} (s1 : Steps c es c2)
    (s2 : Steps c2 fs c3) : Steps c (es ++ fs) c3 := by
  induction s1 with
  | nil c => simpa using s2
  | cons a _ ih => exact Steps.cons a (ih s2)

theorem steps_single {c c2 : Conn} {e : Effect} (a : Atom c e c2) : Steps c [e] c2 :=
  Steps.cons a (Steps.nil c2)

theorem steps_reply (c : Conn) (r : Reply) : Steps c [.reply r] c :=
  steps_single (Atom.neutral c _ rfl)

theorem handleStart_steps (opt : Options) (c : Conn) (env : ControlEnvelope) (w : World) :
    Steps c (handleStart opt c env w).2 (handleStart opt c env w).1 := by
  unfold handleStart
  split
  · exact steps_reply c _
  · split
    · exact steps_reply c _
    · split
      · exact steps_reply c _
      · rename_i hidle
        split
        · exact Steps.cons (Atom.neutral c _ rfl) (steps_reply c _)
        · exact Steps.cons (Atom.create c _ _ hidle rfl rfl) (steps_reply _ _)

theorem handleEnd_steps (c : Conn) (w : World) :
    Steps c (handleEnd c w).2 (handleEnd c w).1 := by
  unfold handleEnd
  split
  · exact steps_reply c _
  · rename_i s hs
    split
    · exact steps_reply c _
    · rename_i h hW
      exact Steps.cons (Atom.close c s h hs hW)
        (Steps.cons (Atom.neutral _ _ rfl) (steps_reply _ _))

theorem handleBinary_steps (opt : Options) (c : Conn) (data : Bytes) (w : World) :
    Steps c (handleBinary opt c data w).2 (handleBinary opt c data w).1 := by
  unfold handleBinary
  split
  · exact steps_reply c _
  · rename_i s hs
    split
    · exact steps_reply c _
    · rename_i h hW
      split
      · exact Steps.cons (Atom.writeFailed c s h data w.writeN hs hW) (steps_reply _ _)
      · dsimp only
        split
        · exact Steps.cons (Atom.writeOk c s h data w.writeN hs hW)
            (Steps.cons (Atom.close _ { s with Written := wrapInt64 (s.Written + w.writeN) } h
              rfl hW) (steps_reply _ _))
        · exact steps_single (Atom.writeOk c s h data w.writeN hs hW)

theorem handleFrame_steps (opt : Options) (c : Conn) (i : Input) :
    Steps c (handleFrame opt c i).2 (handleFrame opt c i).1 := by
  unfold handleFrame
  split
  · exact steps_reply c _
  · split
    · exact handleStart_steps opt c _ _
    · split
      · exact handleEnd_steps c _
      · exact steps_reply c _
  · exact handleBinary_steps opt c _ _
  · exact steps_reply c _

theorem run_steps (opt : Options) (ins : List Input) :
    ∀ c : Conn, Steps c (run opt c ins).2 (run opt c ins).1 := by
  induction ins with
  | nil => intro c; exact Steps.nil c
  | cons i rest ih =>
    intro c
    rw [run_cons]
    exact steps_append (handleFrame_steps opt c i) (ih _)

theorem readError_steps (c : Conn) : ∃ c2, Steps c (readError c) c2 ∧ c2.sink = none := by
  unfold readError
  split
  · rename_i hs
    exact ⟨c, Steps.nil c, by simp [Conn.sink, hs]⟩
  · rename_i s hs
    split
    · rename_i hW
      exact ⟨c, Steps.nil c, by simp [Conn.sink, hs, hW]⟩
    · rename_i h hW
      exact ⟨{ c with stream := none }, steps_single (Atom.close c s h hs hW), rfl⟩

theorem inv_run (opt : Options) (ins : List Input) :
    Inv (run opt Conn.init ins).1 (run opt Conn.init ins).2 := by
  have := inv_steps (run_steps opt ins Conn.init) [] inv_init
  simpa using this

theorem openSinks_of_inv {c : Conn} {tr : List Effect} (inv : Inv c tr) :
    openSinks tr = c.sink.toList := by
  unfold openSinks
  rw [inv.created_eq]
  cases hs : c.sink with
  | none =>
    show _ = []
    rw [List.filter_eq_nil_iff]
    intro h hh
    rw [List.mem_range] at hh
    simp [inv.close_eq h, hh, hs]
  | some h0 =>
    have hlt := inv.sink_lt h0 hs
    have hfun : ∀ h ∈ List.range c.nextSink,
        (decide (closeCount h tr = 0)) = (decide (h = h0)) := by
      intro h hh
      rw [List.mem_range] at hh
      rw [inv.close_eq h, hs]
      by_cases h1 : h = h0
      · subst h1; simp
      · have h2 : ¬ h0 = h := fun e => h1 e.symm
        simp [h1, h2, hh]
    rw [List.filter_congr hfun, filter_eq_range, if_pos hlt]
    rfl

/-! ## Sessions and sinks over a whole connection -/

/-- C1: after any sequence of frames, whatever the frames and the outcomes of
the sink and transcription calls, the sinks created and not yet closed are at
most one, and there is exactly one if and only if the connection is Recording
(in which case it is the sink of the active session). -/
theorem at_most_one_open_sink (opt : Options) (ins : List Input) :
    (openSinks (run opt Conn.init ins).2).length ≤ 1 ∧
      ((openSinks (run opt Conn.init ins).2).length = 1 ↔
        (run opt Conn.init ins).1.recording = true) ∧
      openSinks (run opt Conn.init ins).2 = (run opt Conn.init ins).1.sink.toList := by
  have h := openSinks_of_inv (inv_run opt ins)
  rw [h]
  unfold Conn.recording
  cases (run opt Conn.init ins).1.sink <;> simp

/-- C2: over a whole connection that ends with a failed read, every sink that
was created is closed exactly once, and no sink is written to after it has been
closed. -/
theorem every_sink_closed_once (opt : Options) (ins : List Input) :
    (∀ h ∈ created (serve opt ins), closeCount h (serve opt ins) = 1) ∧
      writtenAfterClose (serve opt ins) = false := by
  obtain ⟨c2, st, hnone⟩ := readError_steps (run opt Conn.init ins).1
  have inv := inv_steps st _ (inv_run opt ins)
  have hserve : serve opt ins = (run opt Conn.init ins).2 ++ readError (run opt Conn.init ins).1 :=
    rfl
  rw [hserve]
  refine ⟨?_, inv.ordered⟩
  intro h hh
  rw [inv.created_eq, List.mem_range] at hh
  rw [inv.close_eq h, hnone]
  simp [hh]

theorem every_sink_closed_once_witness :
    (1 ∈ created (serve sampleOptions
        [startInput "a" "wav", binaryInput [1, 2] 2 false,
          { frame := .text (some { Event := "end", ID := "", Codec := "" }), world := calmWorld },
          startInput "b" "opus", binaryInput [3] 1 false]) ∧
      closeCount 1 (serve sampleOptions
        [startInput "a" "wav", binaryInput [1, 2] 2 false,
          { frame := .text (some { Event := "end", ID := "", Codec := "" }), world := calmWorld },
          startInput "b" "opus", binaryInput [3] 1 false]) = 1) :=
  ⟨by decide, (every_sink_closed_once sampleOptions
        [startInput "a" "wav", binaryInput [1, 2] 2 false,
          { frame := .text (some { Event := "end", ID := "", Codec := "" }), world := calmWorld },
          startInput "b" "opus", binaryInput [3] 1 false]).1 1 (by decide)⟩

/-- C9, as stated, fails: after a `start` and one binary frame whose write
reports 2 bytes together with an error, the session is still active with
counter 0 while the counts reported by the writes to its sink add up to 2. -/
theorem written_counts_reported_counterexample :
    (run sampleOptions Conn.init
        [startInput "a" "wav", binaryInput [1, 2, 3] 2 true]).1.stream =
        some { ID := "a", Codec := "wav", Filename := "/tmp/a.wav", W := some 0, Written := 0 } ∧
      reportedBytes 0 (run sampleOptions Conn.init
        [startInput "a" "wav", binaryInput [1, 2, 3] 2 true]).2 = 2 := by
  decide

/-- C9, amended: in every reachable Recording state the counter of the session
is the int64 value of the sum of the counts reported by the writes to the
session's sink that returned no error, and it equals that sum whenever the sum
is in the int64 range. -/
theorem written_counts_accepted (opt : Options) (ins : List Input) (s : ActiveStream) (h : Nat)
    (hs : (run opt Conn.init ins).1.stream = some s) (hW : s.W = some h) :
    s.Written = wrapInt64 (acceptedBytes h (run opt Conn.init ins).2) ∧
      (-2 ^ 63 ≤ acceptedBytes h (run opt Conn.init ins).2 →
        acceptedBytes h (run opt Conn.init ins).2 < 2 ^ 63 →
        s.Written = acceptedBytes h (run opt Conn.init ins).2) := by
  have h1 := (inv_run opt ins).written_eq s h hs hW
  exact ⟨h1, fun ha hb => by rw [h1, wrapInt64_of_fits ha hb]⟩

theorem written_counts_accepted_witness :
    (3 : Int) = wrapInt64 (acceptedBytes 0 (run sampleOptions Conn.init
        [startInput "a" "wav", binaryInput [1, 2, 3] 3 false, binaryInput [4, 5] 1 true]).2) ∧
      (3 : Int) = acceptedBytes 0 (run sampleOptions Conn.init
        [startInput "a" "wav", binaryInput [1, 2, 3] 3 false, binaryInput [4, 5] 1 true]).2 :=
  have key := written_counts_accepted sampleOptions
    [startInput "a" "wav", binaryInput [1, 2, 3] 3 false, binaryInput [4, 5] 1 true]
    { ID := "a", Codec := "wav", Filename := "/tmp/a.wav", W := some 0, Written := 3 } 0
    (by decide) (by decide)
  ⟨key.1, key.2 (by decide) (by decide)⟩

/-! ## Ending a session -/

theorem end_ne_start {ev : String} (h : ToLower ev = "end") : ToLower ev ≠ "start" := by
  rw [h]
  decide

theorem handleFrame_opens (opt : Options) (c : Conn) (i : Input) (hs : c.sink = none)
    (hopen : i.opensSession = true) :
    (handleFrame opt c i).1.recording = true ∧
      ∃ id f, (handleFrame opt c i).2 = [.sinkCreate c.nextSink f, .reply (.started id)] := by
  obtain ⟨frame, w⟩ := i
  cases frame with
  | other => simp [Input.opensSession] at hopen
  | binary d => simp [Input.opensSession] at hopen
  | text env =>
    cases env with
    | none => simp [Input.opensSession] at hopen
    | some env =>
      simp only [Input.opensSession, Bool.and_eq_true, beq_iff_eq, bne_iff_ne, ne_eq,
        Bool.not_eq_true', Bool.not_eq_eq_eq_not, Bool.not_true] at hopen
      obtain ⟨⟨⟨⟨h1, h2⟩, h3⟩, h4⟩, h5⟩ := hopen
      simp [handleFrame, handleStart, h1, h2, h3, h4, h5, hs, Conn.recording]
      simp [Conn.sink]

theorem transcribe_ok_has_response (s : ActiveStream) (b : Backend)
    (h : (TranscribeActiveStream (some s) b).2 = none) :
    ∃ resp, (TranscribeActiveStream (some s) b).1 = some resp := by
  unfold TranscribeActiveStream at h ⊢
  by_cases hf : s.Filename = ""
  · simp [hf] at h
  · cases b with
    | responded code body parsed dur =>
      by_cases hc : code < 200 ∨ code ≥ 300
      · simp [hf, hc] at h
      · exact ⟨{ StatusCode := code, Body := body, JSON := parsed, Duration := dur },
          by simp [hf, hc]⟩
    | _ => simp [hf] at h

/-- C11: an `end` received while Idle is answered by the single error reply
"no active stream"; the state is returned unchanged (still Idle) and neither a
sink close nor a call of the transcription client is made. -/
theorem end_idle_rejected (opt : Options) (c : Conn) (env : ControlEnvelope) (w : World)
    (hidle : c.recording = false) (hev : ToLower env.Event = "end") :
    handleFrame opt c { frame := .text (some env), world := w } =
        (c, [replyError "no active stream"]) ∧
      (handleFrame opt c { frame := .text (some env), world := w }).1.recording = false := by
  have hs := sink_eq_none_of_not_recording hidle
  have key : handleFrame opt c { frame := .text (some env), world := w } =
      (c, [replyError "no active stream"]) := by
    simp [handleFrame, end_ne_start hev, hev, handleEnd_idle c w hs]
  exact ⟨key, by rw [key]; exact hidle⟩

theorem end_idle_rejected_witness :
    handleFrame sampleOptions Conn.init (endInput (.openFailed "gone")) =
        (Conn.init, [replyError "no active stream"]) ∧
      (handleFrame sampleOptions Conn.init (endInput (.openFailed "gone"))).1.recording = false :=
  end_idle_rejected sampleOptions Conn.init { Event := "end", ID := "", Codec := "" }
    { calmWorld with backend := .openFailed "gone" } (by decide) (by decide)

/-- C12: an `end` received while Recording issues, in this order, the close of
the session's sink, one call of the transcription client on the file of that
session and one reply; there is no other sink or transcription call. -/
theorem end_recording_closes_then_transcribes (opt : Options) (c : Conn) (s : ActiveStream)
    (h : Nat) (env : ControlEnvelope) (w : World) (hs : c.stream = some s) (hW : s.W = some h)
    (hev : ToLower env.Event = "end") :
    ∃ r, (handleFrame opt c { frame := .text (some env), world := w }).2 =
      [.sinkClose h, .transcribe s.Filename, .reply r] := by
  simp [handleFrame, end_ne_start hev, hev, handleEnd, hs, hW]

theorem end_recording_closes_then_transcribes_witness :
    ∃ r, (handleFrame sampleOptions sampleRecording (endInput (.openFailed "gone"))).2 =
      [.sinkClose 0, .transcribe "/tmp/a.wav", .reply r] :=
  end_recording_closes_then_transcribes sampleOptions sampleRecording
    { ID := "a", Codec := "wav", Filename := "/tmp/a.wav", W := some 0, Written := 0 } 0
    { Event := "end", ID := "", Codec := "" } { calmWorld with backend := .openFailed "gone" }
    (by decide) (by decide) (by decide)

/-- C13: an `end` received while Recording leaves the connection Idle whatever
the transcription outcome; when the transcription client returns an error the
only reply is the error status carrying its message, otherwise the only reply
is the success status with transcript and duration; afterwards (also after
further frames that open no session) a valid `start` whose sink creation
succeeds opens a new session. -/
theorem end_recording_returns_to_idle (opt : Options) (c : Conn) (s : ActiveStream) (h : Nat)
    (env : ControlEnvelope) (w : World) (hs : c.stream = some s) (hW : s.W = some h)
    (hev : ToLower env.Event = "end") :
    (handleFrame opt c { frame := .text (some env), world := w }).1 = { c with stream := none } ∧
    (handleFrame opt c { frame := .text (some env), world := w }).1.recording = false ∧
    (∀ err, (TranscribeActiveStream (some s) w.backend).2 = some err →
      (handleFrame opt c { frame := .text (some env), world := w }).2 =
        [.sinkClose h, .transcribe s.Filename, .reply (.transcriptionError err)]) ∧
    ((TranscribeActiveStream (some s) w.backend).2 = none →
      ∃ resp, (TranscribeActiveStream (some s) w.backend).1 = some resp ∧
        (handleFrame opt c { frame := .text (some env), world := w }).2 =
          [.sinkClose h, .transcribe s.Filename,
            .reply (.success (jsonText resp.JSON) resp.Duration)]) ∧
    (∀ (ins : List Input) (i : Input), (∀ j ∈ ins, j.opensSession = false) →
      i.opensSession = true →
      (handleFrame opt
        (run opt (handleFrame opt c { frame := .text (some env), world := w }).1 ins).1
        i).1.recording = true) := by
  have key : handleFrame opt c { frame := .text (some env), world := w } = handleEnd c w := by
    simp [handleFrame, end_ne_start hev, hev]
  have hidle : ({ c with stream := none } : Conn).sink = none := rfl
  have hstate : (handleEnd c w).1 = { c with stream := none } := by
    simp [handleEnd, hs, hW]
  rw [key, hstate]
  refine ⟨rfl, rfl, ?_, ?_, ?_⟩
  · intro err herr
    simp [handleEnd, hs, hW, herr]
  · intro hok
    obtain ⟨resp, hresp⟩ := transcribe_ok_has_response s w.backend hok
    exact ⟨resp, hresp, by simp [handleEnd, hs, hW, hok, hresp]⟩
  · intro ins i hno hopen
    rw [run_idle_state opt ins _ hidle hno]
    exact (handleFrame_opens opt _ i hidle hopen).1

theorem end_recording_returns_to_idle_witness :
    (handleFrame sampleOptions sampleRecording (endInput (.postFailed "refused"))).1 =
        { stream := none, nextSink := 1 } ∧
      (handleFrame sampleOptions sampleRecording (endInput (.postFailed "refused"))).2 =
        [.sinkClose 0, .transcribe "/tmp/a.wav",
          .reply (.transcriptionError "http post: refused")] :=
  have key := end_recording_returns_to_idle sampleOptions sampleRecording
    { ID := "a", Codec := "wav", Filename := "/tmp/a.wav", W := some 0, Written := 0 } 0
    { Event := "end", ID := "", Codec := "" } { calmWorld with backend := .postFailed "refused" }
    (by decide) (by decide) (by decide)
  ⟨key.1, key.2.2.1 "http post: refused" (by decide)⟩

/-! ## Rejected frames -/

/-- C16: in every state, a text frame whose payload does not decode gets the
single error reply "invalid control json", and one whose event, lower-cased, is
neither "start" nor "end" gets the single error reply "unsupported event"; in
both cases the state (with any active session and its counter) is returned
unchanged and no sink or transcription call is made. -/
theorem malformed_or_unknown_rejected (opt : Options) (c : Conn) (w : World) :
    handleFrame opt c { frame := .text none, world := w } =
        (c, [replyError "invalid control json"]) ∧
      ∀ env : ControlEnvelope, ToLower env.Event ≠ "start" → ToLower env.Event ≠ "end" →
        handleFrame opt c { frame := .text (some env), world := w } =
          (c, [replyError "unsupported event"]) := by
  refine ⟨rfl, ?_⟩
  intro env h1 h2
  simp [handleFrame, h1, h2]

theorem malformed_or_unknown_rejected_witness :
    handleFrame sampleOptions sampleRecording
        { frame := .text (some { Event := "Pause", ID := "a", Codec := "wav" }),
          world := calmWorld } =
      (sampleRecording, [replyError "unsupported event"]) :=
  (malformed_or_unknown_rejected sampleOptions sampleRecording calmWorld).2
    { Event := "Pause", ID := "a", Codec := "wav" } (by decide) (by decide)

/-- C17: a binary frame received while Recording whose sink write fails is
answered by the single error reply "failed to write chunk"; the state is
returned unchanged (same session, same counter, still Recording) and the sink
is not closed. -/
theorem write_failure_keeps_session (opt : Options) (c : Conn) (s : ActiveStream) (h : Nat)
    (data : Bytes) (w : World) (hs : c.stream = some s) (hW : s.W = some h)
    (hfail : w.writeFails = true) :
    handleFrame opt c { frame := .binary data, world := w } =
        (c, [.sinkWrite h data w.writeN true, replyError "failed to write chunk"]) ∧
      (handleFrame opt c { frame := .binary data, world := w }).1.recording = true := by
  have key : handleFrame opt c { frame := .binary data, world := w } =
      (c, [.sinkWrite h data w.writeN true, replyError "failed to write chunk"]) := by
    simp [handleFrame, handleBinary, hs, hW, hfail]
  refine ⟨key, ?_⟩
  rw [key]
  simp [Conn.recording, sink_of_stream hs, hW]

theorem write_failure_keeps_session_witness :
    handleFrame sampleOptions sampleRecording (binaryInput [1, 2, 3] 2 true) =
        (sampleRecording, [.sinkWrite 0 [1, 2, 3] 2 true, replyError "failed to write chunk"]) ∧
      (handleFrame sampleOptions sampleRecording (binaryInput [1, 2, 3] 2 true)).1.recording =
        true :=
  write_failure_keeps_session sampleOptions sampleRecording
    { ID := "a", Codec := "wav", Filename := "/tmp/a.wav", W := some 0, Written := 0 } 0
    [1, 2, 3] { calmWorld with writeN := 2, writeFails := true }
    (by decide) (by decide) (by decide)

/-- C18: a valid `start` received while Idle whose sink creation fails leaves
the state unchanged (Idle, nothing of the attempted session is kept), the only
reply is the error "failed to create sink", and afterwards (also after further
frames that open no session) a valid `start` whose sink creation succeeds
opens a session and is acknowledged with `started`. -/
theorem create_failure_stays_idle (opt : Options) (c : Conn) (env : ControlEnvelope) (w : World)
    (hidle : c.recording = false) (hev : ToLower env.Event = "start") (hid : env.ID ≠ "")
    (hcodec : ToLower env.Codec ∈ ["opus", "aac", "wav"]) (hfail : w.createFails = true) :
    handleFrame opt c { frame := .text (some env), world := w } =
        (c, [.sinkCreateFailed (filepathJoin opt.OutDir (env.ID ++ "." ++ ToLower env.Codec)),
              replyError "failed to create sink"]) ∧
    (handleFrame opt c { frame := .text (some env), world := w }).1.recording = false ∧
    (∀ (ins : List Input) (i : Input), (∀ j ∈ ins, j.opensSession = false) →
      i.opensSession = true →
      (handleFrame opt
          (run opt (handleFrame opt c { frame := .text (some env), world := w }).1 ins).1
          i).1.recording = true ∧
        ∃ id f, (handleFrame opt
          (run opt (handleFrame opt c { frame := .text (some env), world := w }).1 ins).1
          i).2 = [.sinkCreate c.nextSink f, .reply (.started id)]) := by
  have hal : isAllowedCodec env.Codec = true := (allowed_iff _).2 hcodec
  have hne := allowed_ne_empty hal
  have hs := sink_eq_none_of_not_recording hidle
  have key : handleFrame opt c { frame := .text (some env), world := w } =
      (c, [.sinkCreateFailed (filepathJoin opt.OutDir (env.ID ++ "." ++ ToLower env.Codec)),
            replyError "failed to create sink"]) := by
    simp [handleFrame, handleStart, hev, hid, hne, hal, hs, hfail, codecToExt]
  rw [key]
  refine ⟨rfl, hidle, ?_⟩
  intro ins i hno hopen
  rw [run_idle_state opt ins c hs hno]
  exact handleFrame_opens opt c i hs hopen

theorem create_failure_stays_idle_witness :
    handleFrame { MaxTotalBytes := 0, OutDir := "/tmp/gv/" } Conn.init
        { frame := .text (some { Event := "start", ID := "a", Codec := "wav" }),
          world := { calmWorld with createFails := true } } =
      (Conn.init, [.sinkCreateFailed "/tmp/gv/a.wav", replyError "failed to create sink"]) :=
  (create_failure_stays_idle { MaxTotalBytes := 0, OutDir := "/tmp/gv/" } Conn.init
    { Event := "start", ID := "a", Codec := "wav" } { calmWorld with createFails := true }
    (by decide) (by decide) (by decide) (by decide) (by decide)).1

/-! ## Frame-level invariants -/

theorem handleFrame_change (opt : Options) (c : Conn) (i : Input) :
    StreamChange opt c i (handleFrame opt c i) := by
  obtain ⟨frame, w⟩ := i
  cases frame with
  | other => exact .same rfl (by simp [handleFrame, replyError])
  | binary d =>
    simp only [handleFrame, handleBinary]
    split
    · exact .same rfl (by simp [replyError])
    · rename_i s hs
      split
      · exact .same rfl (by simp [replyError])
      · rename_i h hW
        split
        · exact .same rfl (by simp [replyError])
        · split
          · exact .dropped rfl (by simp [replyError])
          · rename_i hno
            exact .counted s hs rfl hno (by simp)
  | text env =>
    cases env with
    | none => exact .same rfl (by simp [handleFrame, replyError])
    | some env =>
      simp only [handleFrame]
      split
      · simp only [handleStart]
        split
        · exact .same rfl (by simp [replyError])
        · split
          · exact .same rfl (by simp [replyError])
          · rename_i hal
            split
            · exact .same rfl (by simp [replyError])
            · split
              · exact .same rfl (by simp [replyError])
              · exact .opened env rfl (by simpa using hal) rfl rfl
      · split
        · simp only [handleEnd]
          split
          · exact .same rfl (by simp [replyError])
          · split
            · exact .same rfl (by simp [replyError])
            · exact .dropped rfl (by simp)
        · exact .same rfl (by simp [replyError])

theorem run_invariant (opt : Options) (P : Conn → List Effect → Prop)
    (hstep : ∀ c tr i, P c tr → P (handleFrame opt c i).1 (tr ++ (handleFrame opt c i).2))
    (ins : List Input) :
    ∀ c tr, P c tr → P (run opt c ins).1 (tr ++ (run opt c ins).2) := by
  induction ins with
  | nil => intro c tr h; simpa [run] using h
  | cons i rest ih =>
    intro c tr h
    have := ih _ _ (hstep c tr i h)
    rw [run_cons]
    simpa [List.append_assoc] using this

theorem cleanElem_nonempty (rooted : Bool) (out : List (List Char)) (e : List Char)
    (h : ∀ x ∈ out, x ≠ []) : ∀ x ∈ cleanElem rooted out e, x ≠ [] := by
  unfold cleanElem
  split
  · exact h
  · rename_i hne
    have he : e ≠ [] := fun h0 => hne (Or.inl h0)
    split
    · cases out with
      | nil =>
        cases rooted <;> simp [he]
      | cons top rest =>
        have hrest : ∀ x ∈ rest, x ≠ [] := fun x hx => h x (List.mem_cons_of_mem _ hx)
        simp only
        split
        · split
          · exact h
          · intro x hx
            rcases List.mem_cons.1 hx with hx | hx
            · rw [hx]; exact he
            · exact h x hx
        · exact hrest
    · intro x hx
      rcases List.mem_cons.1 hx with hx | hx
      · rw [hx]; exact he
      · exact h x hx

theorem foldl_cleanElem_nonempty (rooted : Bool) (es : List (List Char)) :
    ∀ out : List (List Char), (∀ x ∈ out, x ≠ []) →
      ∀ x ∈ es.foldl (cleanElem rooted) out, x ≠ [] := by
  induction es with
  | nil => intro out h; simpa using h
  | cons e rest ih =>
    intro out h
    rw [List.foldl_cons]
    exact ih _ (cleanElem_nonempty rooted out e h)

theorem joinPath_ne_nil (l : List (List Char)) (hl : l ≠ []) (h : ∀ x ∈ l, x ≠ []) :
    joinPath l ≠ [] := by
  match l, hl, h with
  | [e], _, h => simpa [joinPath] using h e (List.mem_singleton_self e)
  | e :: f :: es, _, _ => simp [joinPath]

theorem Clean_ne_empty (path : String) : Clean path ≠ "" := by
  intro h
  have h2 := congrArg String.data h
  unfold Clean at h2
  split at h2
  · simp at h2
  · rename_i c cs _
    dsimp only at h2
    split at h2
    · simp at h2
    · split at h2
      · simp at h2
      · rename_i hk
        have hne := foldl_cleanElem_nonempty (decide (c = '/')) (splitPath (c :: cs)) []
          (by simp)
        exact joinPath_ne_nil _ hk (fun x hx => hne x (List.mem_reverse.1 hx)) h2

theorem filepathJoin_ne_empty (dir id ext : String) :
    filepathJoin dir (id ++ "." ++ ext) ≠ "" := by
  have hname : id ++ "." ++ ext ≠ "" := by
    intro h
    have h2 := congrArg String.length h
    have hdot : ".".length = 1 := by decide
    simp [String.length_append, hdot] at h2
  unfold filepathJoin
  repeat' split
  all_goals exact Clean_ne_empty _

theorem splitPath_noSlash (B : List Char) (hB : '/' ∉ B) : splitPath B = [B] := by
  induction B with
  | nil => rfl
  | cons c rest ih =>
    have hc : c ≠ '/' := fun h => hB (by simp [h])
    have hrest : '/' ∉ rest := fun h => hB (List.mem_cons_of_mem _ h)
    simp [splitPath, hc, ih hrest]

theorem splitPath_append (A B : List Char) (hB : '/' ∉ B) :
    ∃ init last, splitPath A = init ++ [last] ∧ splitPath (A ++ B) = init ++ [last ++ B] := by
  induction A with
  | nil => exact ⟨[], [], rfl, by simpa using splitPath_noSlash B hB⟩
  | cons c rest ih =>
    obtain ⟨init, last, h1, h2⟩ := ih
    by_cases hc : c = '/'
    · exact ⟨[] :: init, last, by simp [splitPath, hc, h1], by simp [splitPath, hc, h2]⟩
    · have hstep : ∀ l : List Char, splitPath (c :: l) =
          match splitPath l with
          | [] => [[c]]
          | e :: es => (c :: e) :: es := by
        intro l
        simp [splitPath, hc]
      cases init with
      | nil =>
        refine ⟨[], c :: last, ?_, ?_⟩
        · rw [hstep, h1]; rfl
        · rw [List.cons_append, hstep, h2]; rfl
      | cons e es =>
        refine ⟨(c :: e) :: es, last, ?_, ?_⟩
        · rw [hstep, h1]; rfl
        · rw [List.cons_append, hstep, h2]; rfl

theorem joinPath_append_single (K : List (List Char)) (x : List Char) :
    ∃ pre, joinPath (K ++ [x]) = pre ++ x := by
  induction K with
  | nil => exact ⟨[], rfl⟩
  | cons e rest ih =>
    obtain ⟨pre, hpre⟩ := ih
    cases hr : rest ++ [x] with
    | nil => simp at hr
    | cons f fs =>
      refine ⟨e ++ '/' :: pre, ?_⟩
      rw [List.cons_append, hr, joinPath, ← hr, hpre]
      simp

theorem Clean_keeps_suffix (p : String) (A E : List Char) (hp : p.data = A ++ '.' :: E)
    (hslash : '/' ∉ E) (hne : E ≠ []) (hdot : E ≠ ['.']) :
    ∃ pre : List Char, (Clean p).data = pre ++ '.' :: E := by
  have hB : '/' ∉ '.' :: E := by
    intro h
    rcases List.mem_cons.1 h with h | h
    · exact absurd h (by decide)
    · exact hslash h
  obtain ⟨init, last, _, h2⟩ := splitPath_append A ('.' :: E) hB
  have hreal1 : last ++ '.' :: E ≠ [] := by simp
  have hreal2 : last ++ '.' :: E ≠ ['.'] := by
    cases last with
    | nil => simpa using hne
    | cons a l => simp
  have hreal3 : last ++ '.' :: E ≠ ['.', '.'] := by
    cases last with
    | nil => simpa using hdot
    | cons a l =>
      cases l with
      | nil => simp [hne]
      | cons b l2 => simp
  unfold Clean
  cases hd : p.data with
  | nil => rw [hd] at hp; simp at hp
  | cons c cs =>
    have hsplit : splitPath (c :: cs) = init ++ [last ++ '.' :: E] := by
      rw [← hd, hp]; exact h2
    have hkept : ∀ rooted : Bool,
        ((splitPath (c :: cs)).foldl (cleanElem rooted) []).reverse =
          (init.foldl (cleanElem rooted) []).reverse ++ [last ++ '.' :: E] := by
      intro rooted
      rw [hsplit, List.foldl_append]
      simp [cleanElem, hreal2, hreal3]
    simp only [hkept]
    obtain ⟨pre, hpre⟩ := joinPath_append_single
      ((init.foldl (cleanElem (decide (c = '/'))) []).reverse) (last ++ '.' :: E)
    rw [hpre]
    split
    · exact ⟨'/' :: (pre ++ last), by simp⟩
    · rw [if_neg (by simp)]
      exact ⟨pre ++ last, by simp⟩

theorem filepathJoin_keeps_ext (dir id ext : String) (hext : ext ∈ ["opus", "aac", "wav"]) :
    ∃ pre : String, filepathJoin dir (id ++ "." ++ ext) = pre ++ "." ++ ext := by
  have hE : '/' ∉ ext.data ∧ ext.data ≠ [] ∧ ext.data ≠ ['.'] := by
    simp only [List.mem_cons, List.mem_singleton, List.not_mem_nil, or_false] at hext
    rcases hext with h | h | h <;> subst h <;> decide
  have hname : id ++ "." ++ ext ≠ "" := by
    intro h
    have h2 := congrArg String.length h
    have hdot : ".".length = 1 := by decide
    simp [String.length_append, hdot] at h2
  have hdata : ∀ p : String, (∃ A, p.data = A ++ '.' :: ext.data) →
      ∃ pre : String, Clean p = pre ++ "." ++ ext := by
    intro p ⟨A, hA⟩
    obtain ⟨pre, hpre⟩ := Clean_keeps_suffix p A ext.data hA hE.1 hE.2.1 hE.2.2
    refine ⟨⟨pre⟩, ?_⟩
    apply String.ext
    rw [hpre]
    simp [String.data_append]
  unfold filepathJoin
  split
  · exact hdata _ ⟨dir.data ++ '/' :: id.data, by simp [String.data_append]⟩
  · exact hdata _ ⟨id.data, by simp [String.data_append]⟩

theorem streamInv_init (opt : Options) : StreamInv opt Conn.init [] := by
  intro s hs
  cases hs

theorem streamInv_step (opt : Options) (c : Conn) (tr : List Effect) (i : Input)
    (inv : StreamInv opt c tr) :
    StreamInv opt (handleFrame opt c i).1 (tr ++ (handleFrame opt c i).2) := by
  intro s2 hs2
  cases handleFrame_change opt c i with
  | same hsame _ =>
    rw [hsame] at hs2
    obtain ⟨h1, h2, ⟨h, hW, hmem⟩, h4⟩ := inv s2 hs2
    exact ⟨h1, h2, ⟨h, hW, List.mem_append_left _ hmem⟩, h4⟩
  | dropped hnone _ =>
    rw [hnone] at hs2
    cases hs2
  | counted s hs hnew hno _ =>
    rw [hnew] at hs2
    obtain ⟨h1, h2, ⟨h, hW, hmem⟩, _⟩ := inv s hs
    simp only [Option.some.injEq] at hs2
    subst hs2
    refine ⟨h1, h2, ⟨h, hW, List.mem_append_left _ hmem⟩, ?_⟩
    intro hpos
    simp only
    by_contra hgt
    exact hno ⟨hpos, by omega⟩
  | opened env _ hal hnew heff =>
    rw [hnew] at hs2
    simp only [Option.some.injEq] at hs2
    subst hs2
    refine ⟨(allowed_iff _).1 hal, rfl, ⟨c.nextSink, rfl, ?_⟩, ?_⟩
    · rw [heff]
      simp
    · intro hpos
      exact le_of_lt hpos

theorem streamInv_run (opt : Options) (ins : List Input) :
    StreamInv opt (run opt Conn.init ins).1 (run opt Conn.init ins).2 := by
  have := run_invariant opt (StreamInv opt) (streamInv_step opt) ins Conn.init []
    (streamInv_init opt)
  simpa using this

/-- C15: `isAllowedCodec` holds exactly of the codecs whose lower-cased form is
opus, aac or wav; in every reachable state with an active stream the stored
codec is one of these three lower-case words, the stored file name is the one
`filepath.Join` makes of the output directory and the id, a dot and that codec,
it ends in a dot followed by that codec, and the sink was created under it; and
handling a frame creates a sink only for a `start` whose codec passes the
whitelist, under the name made of its id, a dot and its lower-cased codec. -/
theorem codec_validated (opt : Options) :
    (∀ codec, isAllowedCodec codec = true ↔ ToLower codec ∈ ["opus", "aac", "wav"]) ∧
    (∀ (ins : List Input) (s : ActiveStream), (run opt Conn.init ins).1.stream = some s →
      s.Codec ∈ ["opus", "aac", "wav"] ∧
      s.Filename = filepathJoin opt.OutDir (s.ID ++ "." ++ s.Codec) ∧
      (∃ pre : String, s.Filename = pre ++ "." ++ s.Codec) ∧
      ∃ h, s.W = some h ∧ Effect.sinkCreate h s.Filename ∈ (run opt Conn.init ins).2) ∧
    (∀ (c : Conn) (i : Input) (h : Nat) (f : String),
      Effect.sinkCreate h f ∈ (handleFrame opt c i).2 →
      ∃ env, i.frame = .text (some env) ∧ ToLower env.Codec ∈ ["opus", "aac", "wav"] ∧
        f = filepathJoin opt.OutDir (env.ID ++ "." ++ codecToExt env.Codec) ∧
        ∃ pre : String, f = pre ++ "." ++ codecToExt env.Codec) := by
  refine ⟨allowed_iff, ?_, ?_⟩
  · intro ins s hs
    obtain ⟨h1, h2, ⟨h, hW, hmem⟩, _⟩ := streamInv_run opt ins s hs
    refine ⟨h1, h2, ?_, h, hW, hmem⟩
    rw [h2]
    exact filepathJoin_keeps_ext _ _ _ h1
  · intro c i h f hmem
    cases handleFrame_change opt c i with
    | same _ hno => exact absurd hmem (hno h f)
    | dropped _ hno => exact absurd hmem (hno h f)
    | counted _ _ _ _ hno => exact absurd hmem (hno h f)
    | opened env hframe hal _ heff =>
      rw [heff] at hmem
      simp only [List.mem_cons, Effect.sinkCreate.injEq, List.mem_singleton, reduceCtorEq,
        or_false, List.not_mem_nil] at hmem
      refine ⟨env, hframe, (allowed_iff _).1 hal, by rw [hmem.2]; rfl, ?_⟩
      rw [hmem.2]
      exact filepathJoin_keeps_ext _ _ _ ((allowed_iff _).1 hal)

theorem codec_validated_witness :
    ("wav" ∈ ["opus", "aac", "wav"]) ∧
      "/tmp/b.wav" = filepathJoin nestedOptions.OutDir ("../b" ++ "." ++ "wav") ∧
      (∃ pre : String, "/tmp/b.wav" = pre ++ "." ++ "wav") ∧
      ∃ h, (some 0 : Option Nat) = some h ∧
        Effect.sinkCreate h "/tmp/b.wav" ∈
          (run nestedOptions Conn.init [startInput "../b" "WAV"]).2 :=
  (codec_validated nestedOptions).2.1 [startInput "../b" "WAV"]
    { ID := "../b", Codec := "wav", Filename := "/tmp/b.wav", W := some 0, Written := 0 }
    (by decide)

/-! ## Size limit, transcription outcome and replies -/

/-- C20: a binary frame successfully written while Recording ends the session
if and only if MaxTotalBytes is positive and the new counter value is strictly
greater than it, and then the write precedes the close; a new value equal to
MaxTotalBytes keeps the session, a MaxTotalBytes of zero or less never ends a
session for size, and with a positive MaxTotalBytes every reachable state with
an active stream has a counter of at most MaxTotalBytes. -/
theorem size_limit_exact (opt : Options) (c : Conn) (s : ActiveStream) (h : Nat)
    (data : Bytes) (w : World) (hs : c.stream = some s) (hW : s.W = some h)
    (hok : w.writeFails = false) :
    ((handleFrame opt c { frame := .binary data, world := w }).1.recording = false ↔
      (0 < opt.MaxTotalBytes ∧ opt.MaxTotalBytes < wrapInt64 (s.Written + w.writeN))) ∧
    ((0 < opt.MaxTotalBytes ∧ opt.MaxTotalBytes < wrapInt64 (s.Written + w.writeN)) →
      (handleFrame opt c { frame := .binary data, world := w }).2 =
        [.sinkWrite h data w.writeN false, .sinkClose h,
          replyError "stream too large; closed"]) ∧
    (wrapInt64 (s.Written + w.writeN) = opt.MaxTotalBytes →
      handleFrame opt c { frame := .binary data, world := w } =
        ({ c with stream := some { s with Written := opt.MaxTotalBytes } },
          [.sinkWrite h data w.writeN false])) ∧
    (opt.MaxTotalBytes ≤ 0 →
      (handleFrame opt c { frame := .binary data, world := w }).1.recording = true) ∧
    (∀ (ins : List Input) (s2 : ActiveStream), 0 < opt.MaxTotalBytes →
      (run opt Conn.init ins).1.stream = some s2 → s2.Written ≤ opt.MaxTotalBytes) := by
  by_cases hlim : opt.MaxTotalBytes > 0 ∧ wrapInt64 (s.Written + w.writeN) > opt.MaxTotalBytes
  · have key : handleFrame opt c { frame := .binary data, world := w } =
        ({ c with stream := none },
          [.sinkWrite h data w.writeN false, .sinkClose h,
            replyError "stream too large; closed"]) := by
      simp [handleFrame, handleBinary, hs, hW, hok, hlim.1, hlim.2]
    rw [key]
    refine ⟨⟨fun _ => hlim, fun _ => rfl⟩, fun _ => rfl, ?_, ?_, ?_⟩
    · intro heq
      have := hlim.2
      omega
    · intro hle
      have := hlim.1
      omega
    · intro ins s2 hpos hs2
      exact (streamInv_run opt ins s2 hs2).2.2.2 hpos
  · have key : handleFrame opt c { frame := .binary data, world := w } =
        ({ c with stream := some { s with Written := wrapInt64 (s.Written + w.writeN) } },
          [.sinkWrite h data w.writeN false]) := by
      simp only [handleFrame, handleBinary, hs, hW, hok, Bool.false_eq_true, if_false, hlim]
    have hrec :
        ({ c with stream := some { s with Written := wrapInt64 (s.Written + w.writeN) } } :
          Conn).recording = true := by
      simp [Conn.recording, Conn.sink, hW]
    rw [key]
    refine ⟨⟨fun hf => ?_, fun hx => absurd hx hlim⟩, fun hx => absurd hx hlim, ?_,
      fun _ => hrec, ?_⟩
    · rw [hrec] at hf
      cases hf
    · intro heq
      rw [heq]
    · intro ins s2 hpos hs2
      exact (streamInv_run opt ins s2 hs2).2.2.2 hpos

theorem size_limit_exact_witness :
    handleFrame { MaxTotalBytes := 3, OutDir := "/tmp" } sampleRecording
        (binaryInput [1, 2, 3] 3 false) =
      ({ stream := some { ID := "a", Codec := "wav", Filename := "/tmp/a.wav", W := some 0,
                          Written := 3 },
         nextSink := 1 },
        [.sinkWrite 0 [1, 2, 3] 3 false]) :=
  (size_limit_exact { MaxTotalBytes := 3, OutDir := "/tmp" } sampleRecording
    { ID := "a", Codec := "wav", Filename := "/tmp/a.wav", W := some 0, Written := 0 } 0
    [1, 2, 3] { calmWorld with writeN := 3, writeFails := false }
    (by decide) (by decide) (by decide)).2.2.1 (by decide)

/-- C14, as stated, fails: a response with status 200 whose body does not
parse as JSON is not reported as a failure; the end-of-session reply has status
success, with an empty transcript. -/
theorem transcription_success_counterexample :
    (handleFrame sampleOptions sampleRecording
        (endInput (.responded 200 "not json" none "1s"))).2 =
      [.sinkClose 0, .transcribe "/tmp/a.wav", .reply (.success "" "1s")] := by
  decide

/-- C14, amended: for an `end` in a reachable Recording state answered by the
backend with a response, the reply has status success exactly when the status
code is 2xx, whatever the body: the transcript is the string under "text" of
the decoded body, or empty when the body does not parse or has no such string;
a response with any other status code gives the error reply "non-2xx: code". -/
theorem transcription_success_iff_2xx (opt : Options) (ins : List Input) (s : ActiveStream)
    (h : Nat) (env : ControlEnvelope) (w : World) (code : Int) (body : String)
    (parsed : Option JSONObject) (dur : String)
    (hs : (run opt Conn.init ins).1.stream = some s) (hW : s.W = some h)
    (hev : ToLower env.Event = "end") (hb : w.backend = .responded code body parsed dur) :
    (200 ≤ code ∧ code < 300 →
      (handleFrame opt (run opt Conn.init ins).1 { frame := .text (some env), world := w }).2 =
        [.sinkClose h, .transcribe s.Filename, .reply (.success (jsonText parsed) dur)]) ∧
    (code < 200 ∨ 300 ≤ code →
      (handleFrame opt (run opt Conn.init ins).1 { frame := .text (some env), world := w }).2 =
        [.sinkClose h, .transcribe s.Filename,
          .reply (.transcriptionError ("non-2xx: " ++ toString code))]) := by
  have hfile : s.Filename ≠ "" := by
    rw [(streamInv_run opt ins s hs).2.1]
    exact filepathJoin_ne_empty _ _ _
  have key : handleFrame opt (run opt Conn.init ins).1
      { frame := .text (some env), world := w } = handleEnd (run opt Conn.init ins).1 w := by
    simp [handleFrame, end_ne_start hev, hev]
  rw [key]
  constructor
  · intro hc
    have hno : ¬ (code < 200 ∨ code ≥ 300) := by omega
    simp [handleEnd, hs, hW, hb, TranscribeActiveStream, hfile, hno]
  · intro hc
    have hyes : code < 200 ∨ code ≥ 300 := by omega
    simp [handleEnd, hs, hW, hb, TranscribeActiveStream, hfile, hyes]

theorem transcription_success_iff_2xx_witness :
    (handleFrame sampleOptions (run sampleOptions Conn.init [startInput "a" "wav"]).1
        (endInput (.responded 200 "x" (some [("text", .str "hello")]) "1s"))).2 =
      [.sinkClose 0, .transcribe "/tmp/a.wav", .reply (.success "hello" "1s")] :=
  (transcription_success_iff_2xx sampleOptions [startInput "a" "wav"]
    { ID := "a", Codec := "wav", Filename := "/tmp/a.wav", W := some 0, Written := 0 } 0
    { Event := "end", ID := "", Codec := "" }
    { calmWorld with backend := .responded 200 "x" (some [("text", .str "hello")]) "1s" }
    200 "x" (some [("text", .str "hello")]) "1s"
    (by decide) (by decide) (by decide) (by decide)).1 (by decide)

theorem replies_append (a b : List Effect) : replies (a ++ b) = replies a ++ replies b := by
  simp [replies]

theorem replies_handleStart (opt : Options) (c : Conn) (env : ControlEnvelope) (w : World) :
    (replies (handleStart opt c env w).2).length = 1 := by
  unfold handleStart
  repeat' split
  all_goals simp [replies, replyError]

theorem replies_handleEnd (c : Conn) (w : World) : (replies (handleEnd c w).2).length = 1 := by
  unfold handleEnd
  repeat' split
  all_goals simp [replies, replyError]

theorem replies_handleBinary (opt : Options) (c : Conn) (d : Bytes) (w : World) :
    (replies (handleBinary opt c d w).2).length =
      if silent opt c { frame := .binary d, world := w } = true then 0 else 1 := by
  unfold handleBinary silent
  cases hs : c.stream with
  | none => simp [replies, replyError]
  | some s =>
    cases hW : s.W with
    | none => simp [replies, replyError, hW]
    | some h =>
      cases hf : w.writeFails with
      | true => simp [replies, replyError, hW, hf]
      | false =>
        by_cases hlim : opt.MaxTotalBytes > 0 ∧
            wrapInt64 (s.Written + w.writeN) > opt.MaxTotalBytes
        · simp [replies, replyError, hW, hf, hlim.1, hlim.2]
        · simp only [hW, hf, Bool.false_eq_true, if_false, hlim]
          simp [replies]

theorem replies_run (opt : Options) (ins : List Input) :
    ∀ c : Conn, replies (run opt c ins).2 = (frameReplies opt c ins).flatten ∧
      (frameReplies opt c ins).length = ins.length := by
  induction ins with
  | nil => intro c; simp [run, frameReplies, replies]
  | cons i rest ih =>
    intro c
    obtain ⟨h1, h2⟩ := ih (handleFrame opt c i).1
    rw [run_cons]
    simp only [replies_append, h1, frameReplies, List.flatten_cons, List.length_cons, h2,
      and_self]

/-- C19: handling one frame, in any state, writes at most one reply: none when
the frame is a binary frame written successfully while Recording without
exceeding the size limit, and exactly one in every other case; over a frame
sequence the replies are those of the first frame, then those of the second,
and so on. -/
theorem one_reply_per_frame (opt : Options) (c : Conn) (i : Input) :
    (replies (handleFrame opt c i).2).length ≤ 1 ∧
    (replies (handleFrame opt c i).2).length = (if silent opt c i = true then 0 else 1) ∧
    (∀ ins : List Input, replies (run opt c ins).2 = (frameReplies opt c ins).flatten ∧
      (frameReplies opt c ins).length = ins.length) := by
  have key : (replies (handleFrame opt c i).2).length =
      (if silent opt c i = true then 0 else 1) := by
    obtain ⟨frame, w⟩ := i
    cases frame with
    | other => simp [handleFrame, replies, replyError, silent]
    | binary d => exact replies_handleBinary opt c d w
    | text env =>
      cases env with
      | none => simp [handleFrame, replies, replyError, silent]
      | some env =>
        have hs : silent opt c { frame := .text (some env), world := w } = false := rfl
        rw [hs]
        simp only [handleFrame]
        split
        · simpa using replies_handleStart opt c env w
        · split
          · simpa using replies_handleEnd c w
          · simp [replies, replyError]
  refine ⟨?_, key, fun ins => replies_run opt ins c⟩
  rw [key]
  split <;> omega

end Guava
